import Mathlib

/-!
Verification of the Council-of-Dicks MCP client example
(src/scripts/mcp-client-example.py).

The development shallowly embeds the Python program:
  * `Json` models the Python values handled by the script (dicts with
    string keys, lists, strs, ints, bools, None).  Floats never occur in
    the program and are not modelled.
  * `dumpValue` models `json.dumps` with its default options
    (separators ", " and ": ", ensure_ascii=True).
  * `parseVal` models `json.loads` (strict mode); `pyStrip` models
    `str.strip()` on the ASCII whitespace that can occur on this wire.
  * `ClientState`, `connect`, `send_request`, the four wrapper methods,
    `close` and `runMain` model the class `CouncilMcpClient` and the
    `main()` demo driver.  Socket behaviour (what the OS accepts on
    `send`, what `recv` returns, connection failures) is an explicit
    oracle argument, since the script's effects depend on it.
-/

namespace CouncilMcp

/-- JSON-representable values as handled by the script.  Python dict
insertion order is significant for `json.dumps`, so objects are ordered
association lists. -/
inductive Json where
  | null : Json
  | bool (b : Bool) : Json
  | int (n : Int) : Json
  | str (s : String) : Json
  | arr (xs : List Json) : Json
  | obj (kvs : List (String × Json)) : Json
deriving Repr

/-- Python truthiness (`if params:`) for the modelled values. -/
def jTruthy : Json → Bool
  | .null => false
  | .bool b => b
  | .int n => n != 0
  | .str s => s != ""
  | .arr xs => !xs.isEmpty
  | .obj kvs => !kvs.isEmpty

/-- Lower-case hex digit, as emitted by `json.dumps` unicode escapes. -/
def hexDigitChar (d : Nat) : Char :=
  if d < 10 then Char.ofNat (48 + d) else Char.ofNat (87 + d)

/-- Four lower-case hex digits of a value below 0x10000. -/
def hex4 (n : Nat) : List Char :=
  [hexDigitChar (n / 4096 % 16), hexDigitChar (n / 256 % 16),
   hexDigitChar (n / 16 % 16), hexDigitChar (n % 16)]

/-- One character of a Python string as `json.dumps` (ensure_ascii=True,
the default) writes it: the two-character escapes for quote, backslash
and the five control shorthands, printable ASCII verbatim, and a
backslash-u escape (a surrogate pair above 0xFFFF) for everything else. -/
def escChar (c : Char) : List Char :=
  if c = '"' then ['\\', '"']
  else if c = '\\' then ['\\', '\\']
  else if c = '\x08' then ['\\', 'b']
  else if c = '\x0c' then ['\\', 'f']
  else if c = '\n' then ['\\', 'n']
  else if c = '\r' then ['\\', 'r']
  else if c = '\t' then ['\\', 't']
  else if 0x20 ≤ c.toNat && c.toNat ≤ 0x7e then [c]
  else if c.toNat < 0x10000 then '\\' :: 'u' :: hex4 c.toNat
  else
    ('\\' :: 'u' :: hex4 (0xd800 + (c.toNat - 0x10000) / 0x400)) ++
    ('\\' :: 'u' :: hex4 (0xdc00 + (c.toNat - 0x10000) % 0x400))

/-- `escChar` mapped over a string body. -/
def escList : List Char → List Char
  | [] => []
  | c :: cs => escChar c ++ escList cs

/-- Decimal digits with explicit fuel (so that the kernel can evaluate
it); any fuel above the number works, see `natCharsF_stable`. -/
def natCharsF : Nat → Nat → List Char
  | 0, _ => []
  | fuel + 1, n =>
      if n < 10 then [Char.ofNat (48 + n)]
      else natCharsF fuel (n / 10) ++ [Char.ofNat (48 + n % 10)]

/-- Decimal digits of a natural number, most significant first
(Python `str` on a non-negative int). -/
def natChars (n : Nat) : List Char := natCharsF (n + 1) n

/-- Python `str` on an int: optional minus sign, then decimal digits. -/
def dumpInt (n : Int) : List Char :=
  if n < 0 then '-' :: natChars n.natAbs else natChars n.natAbs

/-- A JSON string literal as `json.dumps` writes it. -/
def dumpStr (s : String) : List Char :=
  '"' :: escList s.data ++ ['"']

mutual
/-- `json.dumps` with its default options: item separator is a comma and
a space, key separator is a colon and a space, ASCII-only output. -/
def dumpValue : Json → List Char
  | .null => ['n', 'u', 'l', 'l']
  | .int n => dumpInt n
  | .bool true => ['t', 'r', 'u', 'e']
  | .bool false => ['f', 'a', 'l', 's', 'e']
  | .str s => dumpStr s
  | .arr [] => ['[', ']']
  | .arr (x :: xs) => '[' :: (dumpValue x ++ dumpElemsRest xs ++ [']'])
  | .obj [] => ['\x7b', '\x7d']
  | .obj ((k, v) :: ps) =>
      '\x7b' :: (dumpStr k ++ ':' :: ' ' :: dumpValue v ++ dumpPairsRest ps ++ ['\x7d'])

/-- Remaining array elements, each preceded by the ", " separator. -/
def dumpElemsRest : List Json → List Char
  | [] => []
  | x :: xs => ',' :: ' ' :: (dumpValue x ++ dumpElemsRest xs)

/-- Remaining object members, each preceded by the ", " separator. -/
def dumpPairsRest : List (String × Json) → List Char
  | [] => []
  | (k, v) :: ps => ',' :: ' ' :: (dumpStr k ++ ':' :: ' ' :: dumpValue v ++ dumpPairsRest ps)
end

/-- `json.dumps(request) + "\n"` — the text the client writes for one
request (its UTF-8 bytes coincide with the characters, because
`json.dumps` output is pure ASCII). -/
def encodeJson (v : Json) : List Char := dumpValue v ++ ['\n']

/-! ## The `json.loads` model

A recursive-descent parser following CPython's pure-Python scanner in
strict mode.  Unsupported corners, none of which this program can hit:
floats (a fractional part or exponent after an integer makes the parse
fail, where Python would build a float), the NaN/Infinity extensions,
and lone UTF-16 surrogates in backslash-u escapes (Lean strings hold
scalar values only). -/

/-- JSON inter-token whitespace (the scanner's ` \t\n\r`). -/
def isWsJ (c : Char) : Bool := c = ' ' || c = '\t' || c = '\n' || c = '\r'

def skipWs (s : List Char) : List Char := s.dropWhile isWsJ

def isDigitC (c : Char) : Bool := 48 ≤ c.toNat && c.toNat ≤ 57

def digitVal (c : Char) : Nat := c.toNat - 48

/-- Accumulate a run of decimal digits. -/
def parseDigits (acc : Nat) : List Char → Nat × List Char
  | [] => (acc, [])
  | c :: rest =>
      if isDigitC c then parseDigits (10 * acc + digitVal c) rest else (acc, c :: rest)

/-- An unsigned JSON integer: `0`, or a nonzero digit followed by more
digits (a leading `0` ends the number at once, as the scanner's number
regular expression does). -/
def parseUInt : List Char → Option (Nat × List Char)
  | [] => none
  | c :: rest =>
      if c = '0' then some (0, rest)
      else if isDigitC c then some (parseDigits (digitVal c) rest)
      else none

/-- After an integer, a digit means a leading-zero form and a dot or
exponent means a float; both make this model's parse fail (Python fails
on the former as well, and builds a float on the latter). -/
def goodTail : List Char → Bool
  | [] => true
  | c :: _ => !isDigitC c && !(c = '.') && !(c = 'e') && !(c = 'E')

def parseNum : List Char → Option (Json × List Char)
  | [] => none
  | c :: rest =>
      if c = '-' then
        (parseUInt rest).bind fun p =>
          if goodTail p.2 then some (.int (-(p.1 : Int)), p.2) else none
      else
        (parseUInt (c :: rest)).bind fun p =>
          if goodTail p.2 then some (.int (p.1 : Int), p.2) else none

def consStr (c : Char) (o : Option (List Char × List Char)) :
    Option (List Char × List Char) :=
  o.map fun p => (c :: p.1, p.2)

def hexDigVal (c : Char) : Option Nat :=
  if 48 ≤ c.toNat && c.toNat ≤ 57 then some (c.toNat - 48)
  else if 97 ≤ c.toNat && c.toNat ≤ 102 then some (c.toNat - 87)
  else if 65 ≤ c.toNat && c.toNat ≤ 70 then some (c.toNat - 55)
  else none

def hex4Val (a b c d : Char) : Option Nat :=
  (hexDigVal a).bind fun x => (hexDigVal b).bind fun y =>
    (hexDigVal c).bind fun z => (hexDigVal d).map fun w =>
      4096 * x + 256 * y + 16 * z + w

/-- Split off four characters (the digits of a backslash-u escape). -/
def read4 : List Char → Option (Char × Char × Char × Char × List Char)
  | a :: b :: c :: d :: r => some (a, b, c, d, r)
  | _ => none

/-- Split off two characters. -/
def read2 : List Char → Option (Char × Char × List Char)
  | a :: b :: r => some (a, b, r)
  | _ => none

/-- Decode what follows a backslash inside a string literal: the named
escapes, or a backslash-u escape (a high surrogate demanding an
immediately following low surrogate, recombined into one scalar). -/
def decodeEsc : List Char → Option (Char × List Char)
  | [] => none
  | e :: r =>
      if e = '"' then some ('"', r)
      else if e = '\\' then some ('\\', r)
      else if e = '/' then some ('/', r)
      else if e = 'b' then some ('\x08', r)
      else if e = 'f' then some ('\x0c', r)
      else if e = 'n' then some ('\n', r)
      else if e = 'r' then some ('\r', r)
      else if e = 't' then some ('\t', r)
      else if e = 'u' then
        (read4 r).bind fun q =>
          (hex4Val q.1 q.2.1 q.2.2.1 q.2.2.2.1).bind fun v =>
            if 55296 ≤ v && v < 56320 then
              (read2 q.2.2.2.2).bind fun w =>
                if w.1 = '\\' && w.2.1 = 'u' then
                  (read4 w.2.2).bind fun q2 =>
                    (hex4Val q2.1 q2.2.1 q2.2.2.1 q2.2.2.2.1).bind fun v2 =>
                      if 56320 ≤ v2 && v2 < 57344 then
                        some (Char.ofNat
                          (65536 + (v - 55296) * 1024 + (v2 - 56320)), q2.2.2.2.2)
                      else none
                else none
            else if 56320 ≤ v && v < 57344 then none
            else some (Char.ofNat v, q.2.2.2.2)
      else none

/-- Body of a JSON string literal, after the opening quote: characters
up to the closing quote, with escapes decoded and unescaped control
characters rejected (strict mode).  Each step consumes at least one
character and one unit of fuel, so fuel `length + 1` (what the callers
pass) never runs out before the input does. -/
def parseStrBody : Nat → List Char → Option (List Char × List Char)
  | 0, _ => none
  | fuel + 1, s =>
      match s with
      | [] => none
      | c :: rest =>
          if c = '"' then some ([], rest)
          else if c = '\\' then
            (decodeEsc rest).bind fun p => consStr p.1 (parseStrBody fuel p.2)
          else if c.toNat < 32 then none
          else consStr c (parseStrBody fuel rest)

/-- CPython dict insertion: an existing key keeps its position and takes
the new value, a new key is appended. -/
def dictInsert (acc : List (String × Json)) (k : String) (v : Json) :
    List (String × Json) :=
  if acc.any (fun p => p.1 = k) then
    acc.map fun p => if p.1 = k then (k, v) else p
  else acc ++ [(k, v)]

/-- Parsed members folded into a dict, as the scanner builds objects. -/
def dedupPairs (ps : List (String × Json)) : List (String × Json) :=
  ps.foldl (fun a p => dictInsert a p.1 p.2) []

/-- Split off three characters. -/
def read3 : List Char → Option (Char × Char × Char × List Char)
  | a :: b :: c :: r => some (a, b, c, r)
  | _ => none

mutual
/-- One JSON value, with leading whitespace skipped.  `fuel` bounds the
nesting depth; `loads` passes enough for any input it is given. -/
def parseVal : Nat → List Char → Option (Json × List Char)
  | 0, _ => none
  | fuel + 1, s =>
      match skipWs s with
      | [] => none
      | c :: rest =>
          if c = '"' then
            (parseStrBody (rest.length + 1) rest).map fun p =>
              (.str (String.mk p.1), p.2)
          else if c = '\x7b' then
            match skipWs rest with
            | [] => none
            | d :: r2 =>
                if d = '\x7d' then some (.obj [], r2)
                else
                  (parseMembers1 fuel (d :: r2)).map fun p =>
                    (.obj (dedupPairs p.1), p.2)
          else if c = '[' then
            match skipWs rest with
            | [] => none
            | d :: r2 =>
                if d = ']' then some (.arr [], r2)
                else (parseElems1 fuel (d :: r2)).map fun p => (.arr p.1, p.2)
          else if c = 't' then
            (read3 rest).bind fun w =>
              if w.1 = 'r' && w.2.1 = 'u' && w.2.2.1 = 'e' then
                some (.bool true, w.2.2.2)
              else none
          else if c = 'f' then
            (read4 rest).bind fun w =>
              if w.1 = 'a' && w.2.1 = 'l' && w.2.2.1 = 's' && w.2.2.2.1 = 'e' then
                some (.bool false, w.2.2.2.2)
              else none
          else if c = 'n' then
            (read3 rest).bind fun w =>
              if w.1 = 'u' && w.2.1 = 'l' && w.2.2.1 = 'l' then
                some (.null, w.2.2.2)
              else none
          else parseNum (c :: rest)

/-- One or more array elements separated by commas, up to the closing
bracket. -/
def parseElems1 : Nat → List Char → Option (List Json × List Char)
  | 0, _ => none
  | fuel + 1, s =>
      (parseVal fuel s).bind fun p =>
        match skipWs p.2 with
        | [] => none
        | d :: r2 =>
            if d = ',' then (parseElems1 fuel r2).map fun q => (p.1 :: q.1, q.2)
            else if d = ']' then some ([p.1], r2)
            else none

/-- One or more `"key": value` members separated by commas, up to the
closing brace. -/
def parseMembers1 : Nat → List Char → Option (List (String × Json) × List Char)
  | 0, _ => none
  | fuel + 1, s =>
      match skipWs s with
      | [] => none
      | c :: r =>
          if c = '"' then
            (parseStrBody (r.length + 1) r).bind fun kp =>
              match skipWs kp.2 with
              | [] => none
              | d :: r2 =>
                  if d = ':' then
                    (parseVal fuel r2).bind fun vp =>
                      match skipWs vp.2 with
                      | [] => none
                      | e :: r3 =>
                          if e = ',' then
                            (parseMembers1 fuel r3).map fun q =>
                              ((String.mk kp.1, vp.1) :: q.1, q.2)
                          else if e = '\x7d' then
                            some ([(String.mk kp.1, vp.1)], r3)
                          else none
                  else none
          else none
end

/-- `json.loads`: parse one value and demand only whitespace after it
("Extra data" otherwise).  The fuel is generous for any input this
program parses; CPython likewise bounds nesting by its recursion
limit. -/
def loads (s : List Char) : Option Json :=
  match parseVal (3 * s.length + 5) s with
  | some (v, rest) => if skipWs rest = [] then some v else none
  | none => none

/-- Python `str.strip()` whitespace, restricted to the ASCII whitespace
that can occur on this wire. -/
def isWsPy (c : Char) : Bool :=
  c = ' ' || c = '\t' || c = '\n' || c = '\r' || c = '\x0b' || c = '\x0c'

/-- `response_data.strip()`. -/
def pyStrip (s : List Char) : List Char :=
  ((s.dropWhile isWsPy).reverse.dropWhile isWsPy).reverse

/-- `json.loads(response_data.strip())`: how the client turns one reply
into a structured value; `none` is the raised `json.JSONDecodeError`. -/
def decodeJson (s : List Char) : Option Json := loads (pyStrip s)

/-! ## The client

`CouncilMcpClient` and the `main()` demo driver.  The socket itself is
replaced by an explicit oracle: what the OS accepts on `send`, and the
bytes `recv(4096)` returns. -/

/-- The Python exceptions this program can raise or catch, plus the
spec's abstract `StateError`, which no code path produces. -/
inductive Err where
  | attributeError      -- `self.sock` read before any `connect`
  | badFileDescriptor   -- OSError: operation on a closed socket
  | brokenPipe          -- BrokenPipeError (an OSError, alias of IOError)
  | jsonDecodeError     -- json.JSONDecodeError from `json.loads`
  | connectionRefused   -- ConnectionRefusedError from `sock.connect`
  | osUnreachable       -- OSError: endpoint unreachable, not caught
  | stateError          -- the spec's StateError: never raised here
deriving DecidableEq, Repr

/-- The `self.sock` attribute: open after `connect`, closed after
`close`; a `ClientState` with no socket models a client on which
`connect` was never called. -/
inductive SockState where
  | conn : SockState
  | closed : SockState
deriving DecidableEq, Repr

/-- The attributes set in `CouncilMcpClient.__init__` plus the
conditionally present `sock`. -/
structure ClientState where
  host : String
  port : Nat
  request_id : Nat
  sock : Option SockState
deriving Repr

/-- `CouncilMcpClient(host, port)`: counter starts at 0, no socket. -/
def mkClient (host : String := "localhost") (port : Nat := 9001) : ClientState :=
  ⟨host, port, 0, none⟩

/-- What the OS does with one `sock.send`: accept up to `n` bytes into
the send buffer, or fail the call on a broken pipe. -/
inductive SendBehavior where
  | accepted (n : Nat) : SendBehavior
  | pipeClosed : SendBehavior
deriving Repr

/-- The network oracle for one `send_request`: the `send` outcome and
the bytes the following `recv(4096)` returns. -/
structure NetCall where
  send : SendBehavior
  recv : List Char
deriving Repr

/-- Network traffic caused by one call. -/
inductive IOEv where
  | wrote (bytes : List Char) : IOEv     -- bytes accepted by the OS
  | received (bytes : List Char) : IOEv
deriving Repr

/-- Everything observable about one `send_request` invocation. -/
structure CallOut where
  st : ClientState              -- client state afterwards
  res : Except Err Json         -- returned response, or the exception
  reqId : Nat                   -- the id placed in the request object
  line : List Char              -- request_json, the argument to send
  trace : List IOEv             -- network traffic that happened
deriving Repr

/-- The request dict as `send_request` builds it: jsonrpc, id, method in
insertion order, and `params` appended only when `if params:` is true. -/
def requestObj (rid : Nat) (method : String) (params : Option Json) : Json :=
  .obj ([("jsonrpc", .str "2.0"), ("id", .int rid), ("method", .str method)] ++
    (match params with
     | some p => if jTruthy p then [("params", p)] else []
     | none => []))

/-- `CouncilMcpClient.send_request`, line by line: increment the id
counter first, build and serialize the request, `sock.send` it (the
return value, the number of bytes actually accepted, is ignored),
`recv` one buffer and `json.loads` it. -/
def send_request (st : ClientState) (method : String) (params : Option Json)
    (nc : NetCall) : CallOut :=
  let rid := st.request_id + 1
  let st1 : ClientState := { st with request_id := rid }
  let line := encodeJson (requestObj rid method params)
  match st1.sock with
  | none => ⟨st1, .error .attributeError, rid, line, []⟩
  | some .closed => ⟨st1, .error .badFileDescriptor, rid, line, []⟩
  | some .conn =>
      match nc.send with
      | .pipeClosed => ⟨st1, .error .brokenPipe, rid, line, []⟩
      | .accepted n =>
          let wire := line.take n
          let ev := [IOEv.wrote wire, IOEv.received nc.recv]
          match decodeJson nc.recv with
          | none => ⟨st1, .error .jsonDecodeError, rid, line, ev⟩
          | some v => ⟨st1, .ok v, rid, line, ev⟩

/-- `list_tools`. -/
def list_tools (st : ClientState) (nc : NetCall) : CallOut :=
  send_request st "tools/list" none nc

/-- `ask_question` (wait_for_consensus defaults to False). -/
def ask_question (st : ClientState) (question : String)
    (wait_for_consensus : Bool) (nc : NetCall) : CallOut :=
  send_request st "council/ask"
    (some (.obj [("question", .str question),
                 ("wait_for_consensus", .bool wait_for_consensus)])) nc

/-- `get_session` (the demo passes the session id it got back, so the
value is an arbitrary JSON value here). -/
def get_session (st : ClientState) (session_id : Json) (nc : NetCall) : CallOut :=
  send_request st "council/get_session"
    (some (.obj [("session_id", session_id)])) nc

/-- `list_sessions`. -/
def list_sessions (st : ClientState) (nc : NetCall) : CallOut :=
  send_request st "council/list_sessions" none nc

/-- `close`: `self.sock.close()` (an AttributeError if `connect` was
never called; closing an already closed socket is fine). -/
def close (st : ClientState) : Except Err ClientState :=
  match st.sock with
  | none => .error .attributeError
  | some _ => .ok { st with sock := some .closed }

/-- Dict lookup, `response["result"]` style (`none` both when the key is
absent and when the value is not a dict). -/
def lookupKey : List (String × Json) → String → Option Json
  | [], _ => none
  | (k, v) :: t, key => if k = key then some v else lookupKey t key

def jGet : Json → String → Option Json
  | .obj kvs, k => lookupKey kvs k
  | _, _ => none

/-! ## connect and the demo driver -/

/-- What the remote endpoint does with the TCP connection attempt. -/
inductive ConnectBehavior where
  | ok : ConnectBehavior
  | refused : ConnectBehavior      -- raises ConnectionRefusedError
  | unreachable : ConnectBehavior  -- raises a plain OSError
deriving DecidableEq, Repr

/-- Outcome of `CouncilMcpClient.connect`. -/
inductive ConnectResult where
  | connected (st : ClientState) : ConnectResult
  | exited (code : Nat) : ConnectResult  -- sys.exit after the printed diagnostic
  | raised (e : Err) : ConnectResult     -- an exception `connect` does not catch
deriving Repr

/-- `connect`: a ConnectionRefusedError is caught, two diagnostic lines
are printed and the process exits with status 1; any other connection
failure (an unreachable endpoint raises a plain OSError) is not caught
and propagates. -/
def connect (st : ClientState) (b : ConnectBehavior) : ConnectResult :=
  match b with
  | .ok => .connected { st with sock := some .conn }
  | .refused => .exited 1
  | .unreachable => .raised .osUnreachable

/-- One call of the demo sequence, wrapper selection included. -/
inductive CallSpec where
  | raw (method : String) (params : Option Json) : CallSpec
  | tools : CallSpec
  | ask (question : String) (wait : Bool) : CallSpec
  | session (sid : Json) : CallSpec
  | sessions : CallSpec
deriving Repr

def doCall (st : ClientState) : CallSpec → NetCall → CallOut
  | .raw m p, nc => send_request st m p nc
  | .tools, nc => list_tools st nc
  | .ask q w, nc => ask_question st q w nc
  | .session sid, nc => get_session st sid nc
  | .sessions, nc => list_sessions st nc

/-- A sequence of calls on one client, threading the state. -/
def runCalls (st : ClientState) : List (CallSpec × NetCall) → List CallOut
  | [] => []
  | (c, nc) :: rest =>
      let out := doCall st c nc
      out :: runCalls out.st rest

def isOk : Except Err Json → Bool
  | .ok _ => true
  | .error _ => false

/-- The question the demo asks. -/
def demoQuestion : String :=
  "What is the best programming language for systems programming?"

/-- A `recv` for a call the demo script never reaches. -/
def defaultNc : NetCall := ⟨.accepted 1000000, []⟩

def takeNc : List NetCall → NetCall × List NetCall
  | [] => (defaultNc, [])
  | n :: t => (n, t)

/-- The body of `main()`'s try block: list_tools, ask_question, then
get_session when a truthy session id came back, then list_sessions.
The first uncaught exception jumps to the `except` handler; either way
`finally` closes the socket.  The result is the list of RPC methods
attempted, in order. -/
def demoBody (st0 : ClientState) (nets : List NetCall) : List String :=
  let (n1, r1) := takeNc nets
  let o1 := list_tools st0 n1
  match o1.res with
  | .error _ => ["tools/list"]
  | .ok _ =>
    let (n2, r2) := takeNc r1
    let o2 := ask_question o1.st demoQuestion false n2
    match o2.res with
    | .error _ => ["tools/list", "council/ask"]
    | .ok a =>
      let sid := (jGet a "result").bind fun r => jGet r "session_id"
      match sid with
      | some s =>
          if jTruthy s then
            let (n3, r3) := takeNc r2
            let o3 := get_session o2.st s n3
            match o3.res with
            | .error _ => ["tools/list", "council/ask", "council/get_session"]
            | .ok _ =>
              let (n4, _) := takeNc r3
              let o4 := list_sessions o3.st n4
              match o4.res with
              | _ => ["tools/list", "council/ask", "council/get_session",
                      "council/list_sessions"]
          else
            let (n4, _) := takeNc r2
            let o4 := list_sessions o2.st n4
            match o4.res with
            | _ => ["tools/list", "council/ask", "council/list_sessions"]
      | none =>
          let (n4, _) := takeNc r2
          let o4 := list_sessions o2.st n4
          match o4.res with
          | _ => ["tools/list", "council/ask", "council/list_sessions"]

/-- Observable outcome of one run of the script. -/
structure MainOutcome where
  exit : Nat                   -- process exit status
  attempted : List String      -- RPC methods attempted, in order
  connDiag : Bool              -- a connection diagnostic reached the terminal
  connErr : Option Err         -- the connection-phase exception, if any
deriving Repr

/-- `main()` under the Python interpreter: `connect` runs before the try
block, so a connection failure (the caught refusal with its sys.exit(1),
or an uncaught OSError, which the interpreter turns into a traceback and
exit status 1) prevents every RPC call.  On a successful connect the
demo body runs and the process exits 0: exceptions inside the try block
are caught and printed, they do not change the exit status. -/
def runMain (b : ConnectBehavior) (nets : List NetCall) : MainOutcome :=
  match connect (mkClient "localhost" 9001) b with
  | .exited c => ⟨c, [], true, some .connectionRefused⟩
  | .raised e => ⟨1, [], true, some e⟩
  | .connected st => ⟨0, demoBody st nets, false, none⟩

/-- The spec's error taxonomy groups refusal and unreachability under
its abstract ConnectionError. -/
def isConnFailure : Err → Bool
  | .connectionRefused => true
  | .osUnreachable => true
  | _ => false

/-! ## Well-formedness and a fuel measure -/

/-- No key occurs twice (Python dicts cannot hold duplicate keys). -/
def keysDistinct : List (String × Json) → Bool
  | [] => true
  | (k, _) :: t => !(t.any fun p => p.1 = k) && keysDistinct t

mutual
/-- A value that a Python dict/list/str/int/bool/None structure can
actually be: every object has distinct keys. -/
def jwf : Json → Bool
  | .null => true
  | .bool _ => true
  | .int _ => true
  | .str _ => true
  | .arr xs => jwfList xs
  | .obj kvs => keysDistinct kvs && jwfPairs kvs

def jwfList : List Json → Bool
  | [] => true
  | x :: xs => jwf x && jwfList xs

def jwfPairs : List (String × Json) → Bool
  | [] => true
  | (_, v) :: ps => jwf v && jwfPairs ps
end

def jwfO : Option Json → Bool
  | none => true
  | some p => jwf p

mutual
/-- Enough parser fuel for one value. -/
def jfuel : Json → Nat
  | .null => 1
  | .bool _ => 1
  | .int _ => 1
  | .str _ => 1
  | .arr xs => 1 + jfuelList xs
  | .obj kvs => 1 + jfuelPairs kvs

def jfuelList : List Json → Nat
  | [] => 1
  | x :: xs => 1 + jfuel x + jfuelList xs

def jfuelPairs : List (String × Json) → Nat
  | [] => 1
  | (_, v) :: ps => 1 + jfuel v + jfuelPairs ps
end

/-- The exception a call raised, if any. -/
def resErr : Except Err Json → Option Err
  | .error e => some e
  | .ok _ => none

/-! ## Lemmas: decimal digits -/

theorem digitChar_facts {d : Nat} (hd : d < 10) :
    isDigitC (Char.ofNat (48 + d)) = true ∧
    digitVal (Char.ofNat (48 + d)) = d ∧
    Char.ofNat (48 + d) ≠ '\n' ∧
    isWsJ (Char.ofNat (48 + d)) = false ∧
    isWsPy (Char.ofNat (48 + d)) = false ∧
    (0 < d → Char.ofNat (48 + d) ≠ '0') := by
  interval_cases d <;> decide

theorem natCharsF_stable (n : Nat) : ∀ fuel fuel', n < fuel → n < fuel' →
    natCharsF fuel n = natCharsF fuel' n := by
  induction n using Nat.strong_induction_on with
  | _ n ih =>
    intro fuel fuel' h h'
    obtain ⟨f, rfl⟩ : ∃ f, fuel = f + 1 := ⟨fuel - 1, by omega⟩
    obtain ⟨f2, rfl⟩ : ∃ f2, fuel' = f2 + 1 := ⟨fuel' - 1, by omega⟩
    by_cases h10 : n < 10
    · simp [natCharsF, h10]
    · rw [natCharsF, natCharsF, if_neg h10, if_neg h10,
        ih (n / 10) (Nat.div_lt_self (by omega) (by omega)) f f2 (by omega) (by omega)]

theorem natChars_small {n : Nat} (h : n < 10) :
    natChars n = [Char.ofNat (48 + n)] := by
  rw [natChars, natCharsF]; simp [h]

theorem natChars_big {n : Nat} (h : ¬ n < 10) :
    natChars n = natChars (n / 10) ++ [Char.ofNat (48 + n % 10)] := by
  rw [natChars, natCharsF, if_neg h, natChars,
    natCharsF_stable (n / 10) n (n / 10 + 1) (Nat.div_lt_self (by omega) (by omega)) (by omega)]

/-- A digit character is none of the parser's dispatch characters. -/
theorem digit_not_special {c : Char} (h : isDigitC c = true) :
    c ≠ '"' ∧ c ≠ '\x7b' ∧ c ≠ '[' ∧ c ≠ 't' ∧ c ≠ 'f' ∧ c ≠ 'n' ∧
    c ≠ '-' ∧ isWsJ c = false ∧ isWsPy c = false ∧ c ≠ ']' ∧ c ≠ '\x7d' ∧
    c ≠ '\n' := by
  simp only [isDigitC, Bool.and_eq_true, decide_eq_true_eq] at h
  have hc : c = Char.ofNat c.toNat := (Char.ofNat_toNat c).symm
  rw [hc]
  have h48 : 48 ≤ c.toNat := h.1
  have h57 : c.toNat ≤ 57 := h.2
  generalize c.toNat = m at h48 h57
  interval_cases m <;> decide

theorem natChars_cons (n : Nat) :
    ∃ c t, natChars n = c :: t ∧ isDigitC c = true ∧ (0 < n → c ≠ '0') := by
  induction n using Nat.strong_induction_on with
  | _ n ih =>
    by_cases h : n < 10
    · exact ⟨Char.ofNat (48 + n), [], natChars_small h,
        (digitChar_facts h).1, (digitChar_facts h).2.2.2.2.2⟩
    · obtain ⟨c, t, hct, hd, hz⟩ := ih (n / 10) (Nat.div_lt_self (by omega) (by omega))
      refine ⟨c, t ++ [Char.ofNat (48 + n % 10)], ?_, hd, fun _ => hz (by omega)⟩
      rw [natChars_big h, hct]; rfl

theorem natChars_last (n : Nat) :
    ∃ t c, natChars n = t ++ [c] ∧ isDigitC c = true := by
  by_cases h : n < 10
  · exact ⟨[], Char.ofNat (48 + n), natChars_small h, (digitChar_facts h).1⟩
  · exact ⟨natChars (n / 10), Char.ofNat (48 + n % 10), natChars_big h,
      (digitChar_facts (show n % 10 < 10 by omega)).1⟩

theorem natChars_ne_nil (n : Nat) : natChars n ≠ [] := by
  obtain ⟨c, t, h, -, -⟩ := natChars_cons n
  simp [h]

theorem parseDigits_natChars (n : Nat) : ∀ acc rest,
    parseDigits acc (natChars n ++ rest) =
      parseDigits (acc * 10 ^ (natChars n).length + n) rest := by
  induction n using Nat.strong_induction_on with
  | _ n ih =>
    intro acc rest
    by_cases h : n < 10
    · rw [natChars_small h]
      have h1 := (digitChar_facts h).1
      have h2 := (digitChar_facts h).2.1
      simp only [List.cons_append, List.nil_append, List.length_singleton,
        parseDigits, h1, if_true, h2, pow_one]
      congr 1
      omega
    · conv_lhs => rw [natChars_big h, List.append_assoc]
      rw [ih (n / 10) (Nat.div_lt_self (by omega) (by omega))]
      have h1 := (digitChar_facts (show n % 10 < 10 by omega)).1
      have h2 := (digitChar_facts (show n % 10 < 10 by omega)).2.1
      simp only [List.cons_append, List.nil_append, parseDigits, h1, if_true, h2]
      have hlen : (natChars n).length = (natChars (n / 10)).length + 1 := by
        rw [natChars_big h]; simp
      rw [hlen]
      congr 1
      rw [Nat.pow_succ]
      generalize (10 : Nat) ^ (natChars (n / 10)).length = P
      have hmod := Nat.div_add_mod n 10
      ring_nf
      omega

theorem parseDigits_stop (acc : Nat) (rest : List Char)
    (h : goodTail rest = true) : parseDigits acc rest = (acc, rest) := by
  cases rest with
  | nil => rfl
  | cons c t =>
    simp only [goodTail, Bool.and_eq_true, Bool.not_eq_true'] at h
    simp [parseDigits, h.1]

theorem parseUInt_natChars (n : Nat) (rest : List Char)
    (h : goodTail rest = true) : parseUInt (natChars n ++ rest) = some (n, rest) := by
  obtain ⟨c, t, hct, hd, hz⟩ := natChars_cons n
  by_cases h0 : n = 0
  · subst h0
    have h00 : natChars 0 = ['0'] := by rw [natChars_small (by omega)]
    rw [h00]
    simp [parseUInt]
  · have hc0 : c ≠ '0' := hz (by omega)
    have key : parseDigits 0 (natChars n ++ rest) = (n, rest) := by
      rw [parseDigits_natChars]
      simpa using parseDigits_stop n rest h
    rw [hct, List.cons_append] at key ⊢
    rw [show parseDigits 0 (c :: (t ++ rest)) = parseDigits (digitVal c) (t ++ rest) by
      simp [parseDigits, hd]] at key
    simp [parseUInt, hc0, hd, key]

/-! ## Lemmas: string escapes -/

theorem hexDigVal_hexDigitChar {d : Nat} (h : d < 16) :
    hexDigVal (hexDigitChar d) = some d := by
  interval_cases d <;> decide

theorem hex4Val_hex4 {n : Nat} (h : n < 65536) :
    hex4Val (hexDigitChar (n / 4096 % 16)) (hexDigitChar (n / 256 % 16))
      (hexDigitChar (n / 16 % 16)) (hexDigitChar (n % 16)) = some n := by
  rw [hex4Val, hexDigVal_hexDigitChar (by omega), hexDigVal_hexDigitChar (by omega),
      hexDigVal_hexDigitChar (by omega), hexDigVal_hexDigitChar (by omega)]
  simp only [Option.some_bind, Option.map_some']
  congr 1
  omega

theorem char_valid_facts (c : Char) :
    c.toNat < 55296 ∨ 57343 < c.toNat ∧ c.toNat < 1114112 := c.valid

theorem read4_cons (a b c d : Char) (t : List Char) :
    read4 (a :: b :: c :: d :: t) = some (a, b, c, d, t) := rfl

theorem read2_cons (a b : Char) (t : List Char) :
    read2 (a :: b :: t) = some (a, b, t) := rfl

set_option maxRecDepth 8000 in
theorem decodeEsc_u (x : Nat) (t : List Char) (hx : x < 65536)
    (hs1 : ¬ (55296 ≤ x ∧ x < 56320)) (hs2 : ¬ (56320 ≤ x ∧ x < 57344)) :
    decodeEsc ('u' :: hex4 x ++ t) = some (Char.ofNat x, t) := by
  rw [hex4]
  simp only [List.cons_append, List.nil_append]
  rw [decodeEsc]
  rw [if_neg (by decide), if_neg (by decide), if_neg (by decide), if_neg (by decide),
      if_neg (by decide), if_neg (by decide), if_neg (by decide), if_neg (by decide),
      if_pos (by decide)]
  rw [read4_cons, Option.some_bind]
  simp only []
  rw [hex4Val_hex4 hx, Option.some_bind]
  rw [if_neg (by simp only [Bool.and_eq_true, decide_eq_true_eq]; exact fun h => hs1 h),
      if_neg (by simp only [Bool.and_eq_true, decide_eq_true_eq]; exact fun h => hs2 h)]

set_option maxRecDepth 8000 in
theorem decodeEsc_surrogate (x : Nat) (t : List Char)
    (h1 : 65536 ≤ x) (h2 : x < 1114112) :
    decodeEsc ('u' :: (hex4 (55296 + (x - 65536) / 1024) ++
      ('\\' :: 'u' :: hex4 (56320 + (x - 65536) % 1024)) ++ t)) =
      some (Char.ofNat x, t) := by
  have hhi : 55296 + (x - 65536) / 1024 < 65536 := by omega
  have hlo : 56320 + (x - 65536) % 1024 < 65536 := by omega
  rw [hex4, hex4]
  simp only [List.cons_append, List.nil_append, List.append_assoc]
  rw [decodeEsc]
  rw [if_neg (by decide), if_neg (by decide), if_neg (by decide), if_neg (by decide),
      if_neg (by decide), if_neg (by decide), if_neg (by decide), if_neg (by decide),
      if_pos (by decide)]
  rw [read4_cons, Option.some_bind]
  simp only []
  rw [hex4Val_hex4 hhi, Option.some_bind]
  rw [if_pos (by simp only [Bool.and_eq_true, decide_eq_true_eq]; omega)]
  rw [read2_cons, Option.some_bind]
  simp only []
  rw [if_pos (by decide)]
  rw [read4_cons]
  rw [Option.some_bind]
  rw [hex4Val_hex4 hlo, Option.some_bind]
  rw [if_pos (by simp only [Bool.and_eq_true, decide_eq_true_eq]; omega)]
  have hc : 65536 + (55296 + (x - 65536) / 1024 - 55296) * 1024 +
      (56320 + (x - 65536) % 1024 - 56320) = x := by omega
  rw [hc]

set_option maxRecDepth 8000 in
theorem parseStrBody_escChar (fuel : Nat) (c : Char) (t : List Char) :
    parseStrBody (fuel + 1) (escChar c ++ t) = consStr c (parseStrBody fuel t) := by
  have hv := char_valid_facts c
  rw [escChar]
  split_ifs with h1 h2 h3 h4 h5 h6 h7 h8 h9
  · subst h1; simp [parseStrBody, decodeEsc]
  · subst h2; simp [parseStrBody, decodeEsc]
  · subst h3; simp [parseStrBody, decodeEsc]
  · subst h4; simp [parseStrBody, decodeEsc]
  · subst h5; simp [parseStrBody, decodeEsc]
  · subst h6; simp [parseStrBody, decodeEsc]
  · subst h7; simp [parseStrBody, decodeEsc]
  · -- printable ASCII, written verbatim
    simp only [Bool.and_eq_true, decide_eq_true_eq] at h8
    have hq : ¬ c = '"' := h1
    have hb : ¬ c = '\\' := h2
    simp [parseStrBody, hq, hb, show ¬ c.toNat < 32 by omega]
  · -- one backslash-u escape
    have hs1 : ¬ (55296 ≤ c.toNat ∧ c.toNat < 56320) := by omega
    have hs2 : ¬ (56320 ≤ c.toNat ∧ c.toNat < 57344) := by omega
    simp only [List.cons_append, parseStrBody]
    rw [show ('u' :: (hex4 c.toNat ++ t)) = ('u' :: hex4 c.toNat ++ t) by simp]
    rw [decodeEsc_u c.toNat t h9 hs1 hs2]
    simp [Char.ofNat_toNat]
  · -- astral plane: a surrogate pair
    have hb1 : 65536 ≤ c.toNat := by omega
    have hb2 : c.toNat < 1114112 := by omega
    simp only [List.cons_append, List.append_assoc, parseStrBody]
    rw [show (hex4 (55296 + (c.toNat - 65536) / 1024) ++
          ('\\' :: 'u' :: (hex4 (56320 + (c.toNat - 65536) % 1024) ++ t))) =
        (hex4 (55296 + (c.toNat - 65536) / 1024) ++
          ('\\' :: 'u' :: hex4 (56320 + (c.toNat - 65536) % 1024)) ++ t) by
      simp [List.append_assoc]]
    rw [decodeEsc_surrogate c.toNat t hb1 hb2]
    simp [Char.ofNat_toNat]

theorem parseStrBody_escList (cs : List Char) : ∀ (fuel : Nat) (t : List Char),
    cs.length < fuel → parseStrBody fuel (escList cs ++ '"' :: t) = some (cs, t) := by
  induction cs with
  | nil =>
      intro fuel t h
      obtain ⟨f, rfl⟩ : ∃ f, fuel = f + 1 := ⟨fuel - 1, by omega⟩
      simp [escList, parseStrBody]
  | cons c cs ih =>
      intro fuel t h
      obtain ⟨f, rfl⟩ : ∃ f, fuel = f + 1 := ⟨fuel - 1, by omega⟩
      rw [escList, List.append_assoc, parseStrBody_escChar,
        ih f t (by simpa using Nat.lt_of_succ_lt_succ h)]
      rfl

theorem escList_length_ge (cs : List Char) : cs.length ≤ (escList cs).length := by
  induction cs with
  | nil => simp [escList]
  | cons c cs ih =>
      rw [escList]
      have : 1 ≤ (escChar c).length := by
        rw [escChar]
        split_ifs <;> simp [hex4]
      simp only [List.length_append, List.length_cons]
      omega

/-! ## Lemmas: whitespace, dispatch heads, dict deduplication -/

theorem skipWs_cons_not {c : Char} (s : List Char) (h : isWsJ c = false) :
    skipWs (c :: s) = c :: s := by
  simp [skipWs, List.dropWhile_cons, h]

theorem skipWs_cons_ws {c : Char} (s : List Char) (h : isWsJ c = true) :
    skipWs (c :: s) = skipWs s := by
  simp [skipWs, List.dropWhile_cons, h]

theorem parseVal_ws (fuel : Nat) {c : Char} (s : List Char) (h : isWsJ c = true) :
    parseVal fuel (c :: s) = parseVal fuel s := by
  cases fuel with
  | zero => rfl
  | succ f => simp only [parseVal, skipWs_cons_ws _ h]

theorem parseElems1_ws (fuel : Nat) {c : Char} (s : List Char) (h : isWsJ c = true) :
    parseElems1 fuel (c :: s) = parseElems1 fuel s := by
  cases fuel with
  | zero => rfl
  | succ f => simp only [parseElems1, parseVal_ws _ _ h]

theorem parseMembers1_ws (fuel : Nat) {c : Char} (s : List Char) (h : isWsJ c = true) :
    parseMembers1 fuel (c :: s) = parseMembers1 fuel s := by
  cases fuel with
  | zero => rfl
  | succ f => simp only [parseMembers1, skipWs_cons_ws _ h]

/-- Every serialized value starts with a non-whitespace character that
is not a closing bracket. -/
theorem dump_head (v : Json) : ∃ c t, dumpValue v = c :: t ∧
    isWsJ c = false ∧ isWsPy c = false ∧ c ≠ ']' ∧ c ≠ '\x7d' := by
  cases v with
  | null => exact ⟨'n', _, rfl, by decide, by decide, by decide, by decide⟩
  | bool b => cases b with
      | true => exact ⟨'t', _, rfl, by decide, by decide, by decide, by decide⟩
      | false => exact ⟨'f', _, rfl, by decide, by decide, by decide, by decide⟩
  | int n =>
      rw [dumpValue, dumpInt]
      by_cases h : n < 0
      · exact ⟨'-', _, by rw [if_pos h], by decide, by decide, by decide, by decide⟩
      · rw [if_neg h]
        obtain ⟨c, t, hct, hd, -⟩ := natChars_cons n.natAbs
        obtain ⟨-, -, -, -, -, -, -, hw, hp, hr, hbr, -⟩ := digit_not_special hd
        exact ⟨c, t, hct, hw, hp, hr, hbr⟩
  | str s => exact ⟨'"', _, rfl, by decide, by decide, by decide, by decide⟩
  | arr xs => cases xs with
      | nil => exact ⟨'[', _, rfl, by decide, by decide, by decide, by decide⟩
      | cons x xs => exact ⟨'[', _, rfl, by decide, by decide, by decide, by decide⟩
  | obj kvs => cases kvs with
      | nil => exact ⟨'\x7b', _, rfl, by decide, by decide, by decide, by decide⟩
      | cons kv kvs =>
          obtain ⟨k, v⟩ := kv
          exact ⟨'\x7b', _, rfl, by decide, by decide, by decide, by decide⟩

/-- Every serialized value ends with a non-whitespace character. -/
theorem dump_last (v : Json) : ∃ t c, dumpValue v = t ++ [c] ∧ isWsPy c = false := by
  cases v with
  | null => exact ⟨['n', 'u', 'l'], 'l', rfl, by decide⟩
  | bool b => cases b with
      | true => exact ⟨['t', 'r', 'u'], 'e', rfl, by decide⟩
      | false => exact ⟨['f', 'a', 'l', 's'], 'e', rfl, by decide⟩
  | int n =>
      rw [dumpValue, dumpInt]
      obtain ⟨t, c, hct, hd⟩ := natChars_last n.natAbs
      obtain ⟨-, -, -, -, -, -, -, -, hp, -, -, -⟩ := digit_not_special hd
      by_cases h : n < 0
      · refine ⟨'-' :: t, c, ?_, hp⟩
        rw [if_pos h, hct]
        rfl
      · refine ⟨t, c, ?_, hp⟩
        rw [if_neg h, hct]
  | str s =>
      exact ⟨'"' :: escList s.data, '"', by rw [dumpValue, dumpStr], by decide⟩
  | arr xs => cases xs with
      | nil => exact ⟨['['], ']', rfl, by decide⟩
      | cons x xs =>
          refine ⟨'[' :: (dumpValue x ++ dumpElemsRest xs), ']', ?_, by decide⟩
          rw [dumpValue]
          simp
  | obj kvs => cases kvs with
      | nil => exact ⟨['\x7b'], '\x7d', rfl, by decide⟩
      | cons kv kvs =>
          obtain ⟨k, v⟩ := kv
          refine ⟨'\x7b' :: (dumpStr k ++ ':' :: ' ' :: dumpValue v ++ dumpPairsRest kvs),
            '\x7d', ?_, by decide⟩
          rw [dumpValue]
          simp

/-- Stripping does nothing when both ends are non-whitespace. -/
theorem pyStrip_id {s : List Char} {c c2 : Char} {t t2 : List Char}
    (hh : s = c :: t) (hl : s = t2 ++ [c2])
    (hc : isWsPy c = false) (hc2 : isWsPy c2 = false) :
    pyStrip s = s := by
  rw [pyStrip]
  have h1 : s.dropWhile isWsPy = s := by rw [hh]; simp [List.dropWhile_cons, hc]
  rw [h1]
  have h2 : s.reverse.dropWhile isWsPy = s.reverse := by
    rw [hl]
    simp [List.dropWhile_cons, hc2]
  rw [h2, List.reverse_reverse]

/-- `str.strip()` on one encoded line removes exactly the trailing
newline. -/
theorem pyStrip_dump (v : Json) : pyStrip (dumpValue v ++ ['\n']) = dumpValue v := by
  obtain ⟨c, t, hct, -, hwp, -, -⟩ := dump_head v
  obtain ⟨t2, c2, hct2, hpy2⟩ := dump_last v
  rw [pyStrip]
  have h1 : (dumpValue v ++ ['\n']).dropWhile isWsPy = dumpValue v ++ ['\n'] := by
    rw [hct]; simp [List.dropWhile_cons, hwp]
  rw [h1]
  have h2 : (dumpValue v ++ ['\n']).reverse.dropWhile isWsPy = (dumpValue v).reverse := by
    rw [List.reverse_append]
    simp only [List.reverse_singleton, List.singleton_append, List.dropWhile_cons]
    rw [if_pos (by decide)]
    conv_lhs => rw [hct2]
    conv_rhs => rw [hct2]
    simp [List.reverse_append, List.dropWhile_cons, hpy2]
  rw [h2, List.reverse_reverse]

theorem jfuel_pos (v : Json) : 1 ≤ jfuel v := by
  cases v <;> simp [jfuel]

theorem jfuelList_pos (xs : List Json) : 1 ≤ jfuelList xs := by
  cases xs with
  | nil => simp [jfuelList]
  | cons x xs => rw [jfuelList]; omega

theorem jfuelPairs_pos (ps : List (String × Json)) : 1 ≤ jfuelPairs ps := by
  cases ps with
  | nil => simp [jfuelPairs]
  | cons p ps => obtain ⟨k, v⟩ := p; rw [jfuelPairs]; omega

theorem dictInsert_not_mem (acc : List (String × Json)) (k : String) (v : Json)
    (h : acc.any (fun p => p.1 = k) = false) :
    dictInsert acc k v = acc ++ [(k, v)] := by
  simp [dictInsert, h]

theorem foldl_dictInsert (ps : List (String × Json)) : ∀ acc,
    keysDistinct ps = true →
    (∀ p ∈ ps, acc.any (fun q => q.1 = p.1) = false) →
    ps.foldl (fun a p => dictInsert a p.1 p.2) acc = acc ++ ps := by
  induction ps with
  | nil => intro acc _ _; simp
  | cons hd tl ih =>
      intro acc hk hdisj
      obtain ⟨k, v⟩ := hd
      simp only [keysDistinct, Bool.and_eq_true, Bool.not_eq_true'] at hk
      rw [List.foldl_cons]
      have hins := dictInsert_not_mem acc k v (hdisj (k, v) (by simp))
      simp only at hins
      rw [hins, ih (acc ++ [(k, v)]) hk.2 ?_]
      · simp
      · intro p hp
        rw [List.any_append]
        simp only [Bool.or_eq_false_iff]
        refine ⟨hdisj p (by simp [hp]), ?_⟩
        simp only [List.any_cons, List.any_nil, Bool.or_false, decide_eq_false_iff_not]
        intro hkp
        have := List.any_eq_false.mp hk.1 p hp
        simp only [decide_eq_true_eq] at this
        exact this (hkp.symm ▸ rfl)

theorem dedupPairs_eq {ps : List (String × Json)} (h : keysDistinct ps = true) :
    dedupPairs ps = ps := by
  rw [dedupPairs, foldl_dictInsert ps [] h (by simp)]
  simp

theorem parseNum_dumpInt (i : Int) (rest : List Char)
    (h : goodTail rest = true) : parseNum (dumpInt i ++ rest) = some (.int i, rest) := by
  by_cases hneg : i < 0
  · have hdi : dumpInt i = '-' :: natChars i.natAbs := by simp [dumpInt, hneg]
    rw [hdi]
    simp only [List.cons_append, parseNum, if_true]
    rw [parseUInt_natChars _ _ h]
    simp only [Option.some_bind, h, if_true]
    have habs : (-(i.natAbs : Int)) = i := by omega
    rw [habs]
  · have hdi : dumpInt i = natChars i.natAbs := by simp [dumpInt, hneg]
    rw [hdi]
    obtain ⟨c, t, hct, hd, -⟩ := natChars_cons i.natAbs
    have hnotdash : ¬ c = '-' := (digit_not_special hd).2.2.2.2.2.2.1
    rw [hct]
    simp only [List.cons_append, parseNum, hnotdash, if_false]
    rw [← List.cons_append, ← hct, parseUInt_natChars _ _ h]
    simp only [Option.some_bind, h, if_true]
    have habs : ((i.natAbs : Int)) = i := by omega
    rw [habs]

/-! ## The round-trip theorem for the serializer and parser -/

theorem goodTail_elemsRest (xs : List Json) (rest : List Char) :
    goodTail (dumpElemsRest xs ++ ']' :: rest) = true := by
  cases xs with
  | nil => rfl
  | cons x xs => rfl

theorem goodTail_pairsRest (ps : List (String × Json)) (rest : List Char) :
    goodTail (dumpPairsRest ps ++ '\x7d' :: rest) = true := by
  cases ps with
  | nil => rfl
  | cons p ps => obtain ⟨k, v⟩ := p; rfl

set_option maxHeartbeats 1000000 in
theorem parse_dump_all : ∀ fuel : Nat,
    (∀ v rest, jwf v = true → jfuel v ≤ fuel → goodTail rest = true →
        parseVal fuel (dumpValue v ++ rest) = some (v, rest)) ∧
    (∀ x xs rest, jwfList (x :: xs) = true → jfuelList (x :: xs) ≤ fuel →
        goodTail rest = true →
        parseElems1 fuel (dumpValue x ++ (dumpElemsRest xs ++ ']' :: rest)) =
          some (x :: xs, rest)) ∧
    (∀ k v ps rest, (jwf v && jwfPairs ps) = true →
        1 + jfuel v + jfuelPairs ps ≤ fuel → goodTail rest = true →
        parseMembers1 fuel
          (dumpStr k ++ (':' :: ' ' :: (dumpValue v ++ (dumpPairsRest ps ++ '\x7d' :: rest)))) =
          some ((k, v) :: ps, rest)) := by
  intro fuel
  induction fuel with
  | zero =>
      refine ⟨?_, ?_, ?_⟩
      · intro v rest _ hfu _
        exact absurd hfu (by have := jfuel_pos v; omega)
      · intro x xs rest _ hfu _
        exact absurd hfu (by have := jfuel_pos x; rw [jfuelList] at hfu ⊢; omega)
      · intro k v ps rest _ hfu _
        exact absurd hfu (by omega)
  | succ fuel ih =>
      obtain ⟨ihV, ihE, ihM⟩ := ih
      refine ⟨?_, ?_, ?_⟩
      · -- parseVal
        intro v rest hwf hfu htail
        cases v with
        | null =>
            simp only [dumpValue, List.cons_append, List.nil_append]
            rw [parseVal, skipWs_cons_not _ (by decide)]
            simp only []
            rw [if_neg (by decide), if_neg (by decide), if_neg (by decide),
                if_neg (by decide), if_neg (by decide), if_pos (by decide)]
            rw [show read3 ('u' :: 'l' :: 'l' :: rest) = some ('u', 'l', 'l', rest) from rfl,
              Option.some_bind]
            rw [if_pos (by simp)]
        | bool b =>
            cases b with
            | true =>
                simp only [dumpValue, List.cons_append, List.nil_append]
                rw [parseVal, skipWs_cons_not _ (by decide)]
                simp only []
                rw [if_neg (by decide), if_neg (by decide), if_neg (by decide),
                    if_pos (by decide)]
                rw [show read3 ('r' :: 'u' :: 'e' :: rest) = some ('r', 'u', 'e', rest) from rfl,
                  Option.some_bind]
                rw [if_pos (by simp)]
            | false =>
                simp only [dumpValue, List.cons_append, List.nil_append]
                rw [parseVal, skipWs_cons_not _ (by decide)]
                simp only []
                rw [if_neg (by decide), if_neg (by decide), if_neg (by decide),
                    if_neg (by decide), if_pos (by decide)]
                rw [show read4 ('a' :: 'l' :: 's' :: 'e' :: rest) =
                      some ('a', 'l', 's', 'e', rest) from rfl,
                  Option.some_bind]
                rw [if_pos (by simp)]
        | int i =>
            have key := parseNum_dumpInt i rest htail
            simp only [dumpValue]
            by_cases hneg : i < 0
            · have hdi : dumpInt i = '-' :: natChars i.natAbs := by rw [dumpInt, if_pos hneg]
              rw [hdi] at key ⊢
              simp only [List.cons_append]
              rw [parseVal, skipWs_cons_not _ (by decide)]
              simp only []
              rw [if_neg (by decide), if_neg (by decide), if_neg (by decide),
                  if_neg (by decide), if_neg (by decide), if_neg (by decide)]
              exact key
            · have hdi : dumpInt i = natChars i.natAbs := by rw [dumpInt, if_neg hneg]
              rw [hdi] at key ⊢
              obtain ⟨c, t, hct, hd, -⟩ := natChars_cons i.natAbs
              obtain ⟨hq, hbr, hsq, ht, hf, hn, -, hwj, -, -, -, -⟩ := digit_not_special hd
              rw [hct] at key ⊢
              simp only [List.cons_append] at key ⊢
              rw [parseVal, skipWs_cons_not _ hwj]
              simp only []
              rw [if_neg hq, if_neg hbr, if_neg hsq, if_neg ht, if_neg hf, if_neg hn]
              exact key
        | str s =>
            simp only [dumpValue, dumpStr, List.cons_append, List.append_assoc,
              List.singleton_append, List.nil_append]
            rw [parseVal, skipWs_cons_not _ (by decide)]
            simp only []
            rw [if_pos (by decide)]
            rw [parseStrBody_escList s.data _ rest
              (by
                have h1 := escList_length_ge s.data
                have h2 : s.length = s.data.length := rfl
                simp [List.length_append]
                omega)]
            rfl
        | arr xs =>
            cases xs with
            | nil =>
                simp only [dumpValue, List.cons_append, List.nil_append]
                rw [parseVal, skipWs_cons_not _ (by decide)]
                simp only []
                rw [if_neg (by decide), if_neg (by decide), if_pos (by decide)]
                rw [skipWs_cons_not _ (by decide)]
                simp only []
                rw [if_pos (by decide)]
            | cons x xs =>
                simp only [dumpValue, List.cons_append, List.append_assoc,
                  List.nil_append, List.singleton_append]
                rw [parseVal, skipWs_cons_not _ (by decide)]
                simp only []
                rw [if_neg (by decide), if_neg (by decide), if_pos (by decide)]
                obtain ⟨c0, t0, hct0, hwj0, -, hne0, -⟩ := dump_head x
                rw [hct0, List.cons_append, skipWs_cons_not _ hwj0]
                simp only []
                rw [if_neg hne0]
                rw [← List.cons_append, ← hct0]
                rw [jwf] at hwf
                rw [jfuel] at hfu
                rw [ihE x xs rest hwf (by omega) htail]
                rfl
        | obj kvs =>
            cases kvs with
            | nil =>
                simp only [dumpValue, List.cons_append, List.nil_append]
                rw [parseVal, skipWs_cons_not _ (by decide)]
                simp only []
                rw [if_neg (by decide), if_pos (by decide)]
                rw [skipWs_cons_not _ (by decide)]
                simp only []
                rw [if_pos (by decide)]
            | cons kv ps =>
                obtain ⟨k, v⟩ := kv
                rw [jwf, Bool.and_eq_true] at hwf
                obtain ⟨hkd, hwp⟩ := hwf
                rw [jwfPairs] at hwp
                rw [jfuel, jfuelPairs] at hfu
                simp only [dumpValue, List.cons_append, List.append_assoc,
                  List.nil_append, List.singleton_append]
                rw [parseVal, skipWs_cons_not _ (by decide)]
                simp only []
                rw [if_neg (by decide), if_pos (by decide)]
                rw [dumpStr]
                simp only [List.cons_append, List.append_assoc, List.singleton_append]
                rw [skipWs_cons_not _ (show isWsJ '"' = false by decide)]
                simp only []
                rw [if_neg (show ¬ ('"' = '\x7d') by decide)]
                have hm := ihM k v ps rest hwp (by omega) htail
                rw [dumpStr] at hm
                simp only [List.cons_append, List.append_assoc, List.singleton_append] at hm
                rw [hm]
                simp only [Option.map_some']
                rw [dedupPairs_eq hkd]
      · -- parseElems1
        intro x xs rest hwf hfu htail
        rw [jwfList, Bool.and_eq_true] at hwf
        obtain ⟨hwx, hwxs⟩ := hwf
        rw [jfuelList] at hfu
        rw [parseElems1]
        rw [ihV x (dumpElemsRest xs ++ ']' :: rest) hwx
          (by have := jfuelList_pos xs; omega) (goodTail_elemsRest xs rest)]
        rw [Option.some_bind]
        simp only []
        cases xs with
        | nil =>
            simp only [dumpElemsRest, List.nil_append]
            rw [skipWs_cons_not _ (show isWsJ ']' = false by decide)]
            simp only []
            rw [if_neg (show ¬ (']' = ',') by decide), if_pos (by trivial)]
        | cons y ys =>
            simp only [dumpElemsRest, List.cons_append, List.append_assoc]
            rw [skipWs_cons_not _ (show isWsJ ',' = false by decide)]
            simp only []
            rw [if_pos (by trivial)]
            rw [parseElems1_ws _ _ (show isWsJ ' ' = true by decide)]
            rw [ihE y ys rest hwxs
              (by rw [jfuelList] at hfu ⊢; have := jfuel_pos x; omega) htail]
            rfl
      · -- parseMembers1
        intro k v ps rest hwp hfu htail
        rw [Bool.and_eq_true] at hwp
        rw [parseMembers1, dumpStr]
        simp only [List.cons_append, List.append_assoc, List.singleton_append,
          List.nil_append]
        rw [skipWs_cons_not _ (show isWsJ '"' = false by decide)]
        simp only []
        rw [if_pos (by trivial)]
        rw [parseStrBody_escList k.data _ _
          (by
            have h1 := escList_length_ge k.data
            have h2 : k.length = k.data.length := rfl
            simp [List.length_append]
            omega)]
        rw [Option.some_bind]
        simp only []
        rw [skipWs_cons_not _ (show isWsJ ':' = false by decide)]
        simp only []
        rw [if_pos (by trivial)]
        rw [parseVal_ws _ _ (show isWsJ ' ' = true by decide)]
        rw [ihV v (dumpPairsRest ps ++ '\x7d' :: rest) hwp.1
          (by have := jfuelPairs_pos ps; omega) (goodTail_pairsRest ps rest)]
        rw [Option.some_bind]
        simp only []
        cases ps with
        | nil =>
            simp only [dumpPairsRest, List.nil_append]
            rw [skipWs_cons_not _ (show isWsJ '\x7d' = false by decide)]
            simp only []
            rw [if_neg (show ¬ ('\x7d' = ',') by decide), if_pos (by trivial)]
        | cons kv2 ps2 =>
            obtain ⟨k2, v2⟩ := kv2
            simp only [dumpPairsRest, List.cons_append, List.append_assoc]
            rw [skipWs_cons_not _ (show isWsJ ',' = false by decide)]
            simp only []
            rw [if_pos (by trivial)]
            rw [parseMembers1_ws _ _ (show isWsJ ' ' = true by decide)]
            have hwp2 := hwp.2
            rw [jwfPairs] at hwp2
            have hm := ihM k2 v2 ps2 rest hwp2
              (by rw [jfuelPairs] at hfu; have := jfuel_pos v; omega) htail
            rw [hm]
            rfl

theorem dumpInt_length_pos (i : Int) : 1 ≤ (dumpInt i).length := by
  rw [dumpInt]
  split_ifs with h
  · simp
  · obtain ⟨c, t, hct, -, -⟩ := natChars_cons i.natAbs
    rw [hct]; simp

theorem jfuel_le_bound : ∀ (n : Nat) (v : Json), sizeOf v ≤ n →
    jfuel v ≤ 3 * (dumpValue v).length := by
  intro n
  induction n with
  | zero =>
      intro v h
      exfalso
      cases v <;> simp at h
  | succ n ih =>
      intro v hv
      cases v with
      | null => simp [jfuel, dumpValue]
      | bool b => cases b <;> simp [jfuel, dumpValue]
      | int i =>
          rw [jfuel, dumpValue]
          have := dumpInt_length_pos i
          omega
      | str s =>
          rw [jfuel, dumpValue, dumpStr]
          simp only [List.length_cons, List.length_append]
          omega
      | arr xs =>
          have aux : ∀ ys : List Json, (∀ y ∈ ys, sizeOf y ≤ n) →
              jfuelList ys ≤ 3 * (dumpElemsRest ys).length + 4 := by
            intro ys
            induction ys with
            | nil => intro _; simp [jfuelList, dumpElemsRest]
            | cons y ys ihy =>
                intro hmem
                rw [jfuelList, dumpElemsRest]
                have h1 := ih y (hmem y (by simp))
                have h2 := ihy (fun z hz => hmem z (by simp [hz]))
                simp only [List.length_cons, List.length_append]
                omega
          cases xs with
          | nil => simp [jfuel, jfuelList, dumpValue]
          | cons x xs =>
              have hsz : sizeOf (x :: xs) ≤ n := by
                have : sizeOf (Json.arr (x :: xs)) = 1 + sizeOf (x :: xs) := by simp
                omega
              have hmem : ∀ y ∈ x :: xs, sizeOf y ≤ n := by
                intro y hy
                have := List.sizeOf_lt_of_mem hy
                omega
              have h1 := ih x (hmem x (by simp))
              have h2 := aux xs (fun z hz => hmem z (by simp [hz]))
              rw [jfuel, jfuelList, dumpValue]
              simp only [List.length_cons, List.length_append]
              omega
      | obj kvs =>
          have aux : ∀ qs : List (String × Json), (∀ q ∈ qs, sizeOf q.2 ≤ n) →
              jfuelPairs qs ≤ 3 * (dumpPairsRest qs).length + 4 := by
            intro qs
            induction qs with
            | nil => intro _; simp [jfuelPairs, dumpPairsRest]
            | cons q qs ihq =>
                intro hmem
                obtain ⟨k2, w⟩ := q
                rw [jfuelPairs, dumpPairsRest]
                have h1 := ih w (hmem (k2, w) (by simp))
                have h2 := ihq (fun z hz => hmem z (by simp [hz]))
                simp only [List.length_cons, List.length_append]
                omega
          cases kvs with
          | nil => simp [jfuel, jfuelPairs, dumpValue]
          | cons kv ps =>
              obtain ⟨k, v⟩ := kv
              have hsz : sizeOf ((k, v) :: ps) ≤ n := by
                have : sizeOf (Json.obj ((k, v) :: ps)) = 1 + sizeOf ((k, v) :: ps) := by
                  simp
                omega
              have hmem : ∀ q ∈ (k, v) :: ps, sizeOf q.2 ≤ n := by
                intro q hq
                have h1 := List.sizeOf_lt_of_mem hq
                obtain ⟨a, b⟩ := q
                have : sizeOf (a, b) = 1 + sizeOf a + sizeOf b := by simp
                simp only at this ⊢
                omega
              have h1 := ih v (hmem (k, v) (by simp))
              have h2 := aux ps (fun z hz => hmem z (by simp [hz]))
              rw [jfuel, jfuelPairs, dumpValue]
              simp only [List.length_cons, List.length_append]
              omega

theorem jfuel_le (v : Json) : jfuel v ≤ 3 * (dumpValue v).length :=
  jfuel_le_bound (sizeOf v) v le_rfl

/-- `json.loads` recovers what `json.dumps` wrote. -/
theorem loads_dump (v : Json) (h : jwf v = true) : loads (dumpValue v) = some v := by
  rw [loads]
  have hf := (parse_dump_all (3 * (dumpValue v).length + 5)).1 v [] h
    (by have := jfuel_le v; omega) (by rfl)
  rw [List.append_nil] at hf
  rw [hf]
  simp [skipWs]

/-- `json.loads(line.strip())` recovers what the client serialized. -/
theorem decodeJson_encodeJson (v : Json) (h : jwf v = true) :
    decodeJson (encodeJson v) = some v := by
  rw [decodeJson, encodeJson, pyStrip_dump, loads_dump v h]

theorem hexDigitChar_ne_nl {d : Nat} (h : d < 16) : hexDigitChar d ≠ '\n' := by
  interval_cases d <;> decide

theorem nl_notin_escChar (c : Char) : '\n' ∉ escChar c := by
  rw [escChar]
  split_ifs with h1 h2 h3 h4 h5 h6 h7 h8 h9
  · decide
  · decide
  · decide
  · decide
  · decide
  · decide
  · decide
  · simp only [Bool.and_eq_true, decide_eq_true_eq] at h8
    simp only [List.mem_singleton]
    intro hc
    subst hc
    revert h8
    decide
  · simp only [hex4, List.mem_cons, List.mem_singleton]
    push_neg
    refine ⟨by decide, by decide, ?_, ?_, ?_, ?_, by simp⟩ <;>
      exact fun h => hexDigitChar_ne_nl (by omega) h.symm |>.elim
  · simp only [hex4, List.mem_append, List.mem_cons, List.mem_singleton]
    push_neg
    constructor
    · refine ⟨by decide, by decide, ?_, ?_, ?_, ?_, by simp⟩ <;>
        exact fun h => hexDigitChar_ne_nl (by omega) h.symm |>.elim
    · refine ⟨by decide, by decide, ?_, ?_, ?_, ?_, by simp⟩ <;>
        exact fun h => hexDigitChar_ne_nl (by omega) h.symm |>.elim
theorem nl_notin_escList (cs : List Char) : '\n' ∉ escList cs := by
  induction cs with
  | nil => simp [escList]
  | cons c cs ih =>
      rw [escList]
      have h1 := nl_notin_escChar c
      simp [List.mem_append, h1, ih]

theorem nl_notin_natChars (n : Nat) : '\n' ∉ natChars n := by
  induction n using Nat.strong_induction_on with
  | _ n ih =>
    by_cases h : n < 10
    · rw [natChars_small h]
      simp only [List.mem_singleton]
      intro hc
      exact (digitChar_facts h).2.2.1 hc.symm
    · rw [natChars_big h]
      have h1 := ih (n / 10) (Nat.div_lt_self (by omega) (by omega))
      simp only [List.mem_append, List.mem_singleton, h1, false_or]
      intro hc
      exact (digitChar_facts (show n % 10 < 10 by omega)).2.2.1 hc.symm

theorem nl_notin_dumpInt (i : Int) : '\n' ∉ dumpInt i := by
  rw [dumpInt]
  have h1 := nl_notin_natChars i.natAbs
  split_ifs with h
  · simp [List.mem_cons, h1]
  · exact h1

theorem nl_notin_dumpStr (s : String) : '\n' ∉ dumpStr s := by
  rw [dumpStr]
  have h1 := nl_notin_escList s.data
  simp [List.cons_append, List.mem_cons, List.mem_append, h1]

theorem nl_notin_dump_bound : ∀ (n : Nat) (v : Json), sizeOf v ≤ n →
    '\n' ∉ dumpValue v := by
  intro n
  induction n with
  | zero =>
      intro v h
      exfalso
      cases v <;> simp at h
  | succ n ih =>
      intro v hv
      cases v with
      | null => decide
      | bool b => cases b <;> decide
      | int i => exact nl_notin_dumpInt i
      | str s => exact nl_notin_dumpStr s
      | arr xs =>
          have aux : ∀ ys : List Json, (∀ y ∈ ys, sizeOf y ≤ n) →
              '\n' ∉ dumpElemsRest ys := by
            intro ys
            induction ys with
            | nil => intro _; simp [dumpElemsRest]
            | cons y ys ihy =>
                intro hmem
                rw [dumpElemsRest]
                have h1 := ih y (hmem y (by simp))
                have h2 := ihy (fun z hz => hmem z (by simp [hz]))
                simp [List.mem_cons, List.mem_append, h1, h2]
          cases xs with
          | nil => decide
          | cons x xs =>
              have hsz : sizeOf (x :: xs) ≤ n := by
                have : sizeOf (Json.arr (x :: xs)) = 1 + sizeOf (x :: xs) := by simp
                omega
              have hmem : ∀ y ∈ x :: xs, sizeOf y ≤ n := by
                intro y hy
                have := List.sizeOf_lt_of_mem hy
                omega
              have h1 := ih x (hmem x (by simp))
              have h2 := aux xs (fun z hz => hmem z (by simp [hz]))
              rw [dumpValue]
              simp [List.mem_cons, List.mem_append, List.mem_singleton, h1, h2]
      | obj kvs =>
          have aux : ∀ qs : List (String × Json), (∀ q ∈ qs, sizeOf q.2 ≤ n) →
              '\n' ∉ dumpPairsRest qs := by
            intro qs
            induction qs with
            | nil => intro _; simp [dumpPairsRest]
            | cons q qs ihq =>
                intro hmem
                obtain ⟨k2, w⟩ := q
                rw [dumpPairsRest]
                have h1 := ih w (hmem (k2, w) (by simp))
                have h2 := ihq (fun z hz => hmem z (by simp [hz]))
                have h3 := nl_notin_dumpStr k2
                simp [List.mem_cons, List.mem_append, h1, h2, h3]
          cases kvs with
          | nil => decide
          | cons kv ps =>
              obtain ⟨k, v⟩ := kv
              have hsz : sizeOf ((k, v) :: ps) ≤ n := by
                have : sizeOf (Json.obj ((k, v) :: ps)) = 1 + sizeOf ((k, v) :: ps) := by
                  simp
                omega
              have hmem : ∀ q ∈ (k, v) :: ps, sizeOf q.2 ≤ n := by
                intro q hq
                have hlt := List.sizeOf_lt_of_mem hq
                obtain ⟨a, b⟩ := q
                have : sizeOf (a, b) = 1 + sizeOf a + sizeOf b := by simp
                simp only at this ⊢
                omega
              have h1 := ih v (hmem (k, v) (by simp))
              have h2 := aux ps (fun z hz => hmem z (by simp [hz]))
              have h3 := nl_notin_dumpStr k
              rw [dumpValue]
              simp [List.mem_cons, List.mem_append, List.mem_singleton, h1, h2, h3]

/-- `json.dumps` output is a single line: no raw newline occurs in it. -/
theorem nl_notin_dump (v : Json) : '\n' ∉ dumpValue v :=
  nl_notin_dump_bound (sizeOf v) v le_rfl

set_option maxHeartbeats 1000000 in
/-- The parser is monotone in its fuel: enough fuel means any more fuel
gives the same result. -/
theorem parse_mono : ∀ fuel : Nat,
    (∀ s r d, parseVal fuel s = some r → parseVal (fuel + d) s = some r) ∧
    (∀ s r d, parseElems1 fuel s = some r → parseElems1 (fuel + d) s = some r) ∧
    (∀ s r d, parseMembers1 fuel s = some r → parseMembers1 (fuel + d) s = some r) := by
  intro fuel
  induction fuel with
  | zero =>
      refine ⟨?_, ?_, ?_⟩ <;> intro s r d h <;> exact absurd h (by simp [parseVal, parseElems1, parseMembers1])
  | succ fuel ih =>
      obtain ⟨ihV, ihE, ihM⟩ := ih
      refine ⟨?_, ?_, ?_⟩
      · intro s r d h
        rw [show fuel + 1 + d = (fuel + d) + 1 by omega]
        rw [parseVal] at h ⊢
        cases hsk : skipWs s with
        | nil => rw [hsk] at h; exact absurd h (by simp)
        | cons c rest =>
            rw [hsk] at h
            simp only [] at h ⊢
            by_cases h1 : c = '"'
            · simp only [if_pos h1] at h ⊢; exact h
            · simp only [if_neg h1] at h ⊢
              by_cases h2 : c = '\x7b'
              · simp only [if_pos h2] at h ⊢
                cases hsk2 : skipWs rest with
                | nil => rw [hsk2] at h; exact absurd h (by simp)
                | cons d2 r2 =>
                    rw [hsk2] at h
                    simp only [] at h ⊢
                    by_cases h3 : d2 = '\x7d'
                    · simp only [if_pos h3] at h ⊢; exact h
                    · simp only [if_neg h3] at h ⊢
                      cases hm : parseMembers1 fuel (d2 :: r2) with
                      | none => rw [hm] at h; exact absurd h (by simp)
                      | some q => rw [ihM _ _ d hm]; rw [hm] at h; exact h
              · simp only [if_neg h2] at h ⊢
                by_cases h3 : c = '['
                · simp only [if_pos h3] at h ⊢
                  cases hsk2 : skipWs rest with
                  | nil => rw [hsk2] at h; exact absurd h (by simp)
                  | cons d2 r2 =>
                      rw [hsk2] at h
                      simp only [] at h ⊢
                      by_cases h4 : d2 = ']'
                      · simp only [if_pos h4] at h ⊢; exact h
                      · simp only [if_neg h4] at h ⊢
                        cases he : parseElems1 fuel (d2 :: r2) with
                        | none => rw [he] at h; exact absurd h (by simp)
                        | some q => rw [ihE _ _ d he]; rw [he] at h; exact h
                · simp only [if_neg h3] at h ⊢
                  exact h
      · intro s r d h
        rw [show fuel + 1 + d = (fuel + d) + 1 by omega]
        rw [parseElems1] at h ⊢
        cases hv : parseVal fuel s with
        | none => rw [hv] at h; exact absurd h (by simp)
        | some p =>
            rw [ihV _ _ d hv]
            rw [hv] at h
            simp only [Option.some_bind] at h ⊢
            cases hsk : skipWs p.2 with
            | nil => rw [hsk] at h; exact absurd h (by simp)
            | cons d2 r2 =>
                rw [hsk] at h
                simp only [] at h ⊢
                by_cases h1 : d2 = ','
                · simp only [if_pos h1] at h ⊢
                  cases he : parseElems1 fuel r2 with
                  | none => rw [he] at h; exact absurd h (by simp)
                  | some q => rw [ihE _ _ d he]; rw [he] at h; exact h
                · simp only [if_neg h1] at h ⊢
                  exact h
      · intro s r d h
        rw [show fuel + 1 + d = (fuel + d) + 1 by omega]
        rw [parseMembers1] at h ⊢
        cases hsk : skipWs s with
        | nil => rw [hsk] at h; exact absurd h (by simp)
        | cons c rest =>
            rw [hsk] at h
            simp only [] at h ⊢
            by_cases h1 : c = '"'
            · simp only [if_pos h1] at h ⊢
              cases hp : parseStrBody (rest.length + 1) rest with
              | none => rw [hp] at h; exact absurd h (by simp)
              | some kp =>
                  rw [hp] at h
                  simp only [Option.some_bind] at h ⊢
                  cases hsk2 : skipWs kp.2 with
                  | nil => rw [hsk2] at h; exact absurd h (by simp)
                  | cons d2 r2 =>
                      rw [hsk2] at h
                      simp only [] at h ⊢
                      by_cases h2 : d2 = ':'
                      · simp only [if_pos h2] at h ⊢
                        cases hv : parseVal fuel r2 with
                        | none => rw [hv] at h; exact absurd h (by simp)
                        | some vp =>
                            rw [ihV _ _ d hv]
                            rw [hv] at h
                            simp only [Option.some_bind] at h ⊢
                            cases hsk3 : skipWs vp.2 with
                            | nil => rw [hsk3] at h; exact absurd h (by simp)
                            | cons e r3 =>
                                rw [hsk3] at h
                                simp only [] at h ⊢
                                by_cases h3 : e = ','
                                · simp only [if_pos h3] at h ⊢
                                  cases hm : parseMembers1 fuel r3 with
                                  | none => rw [hm] at h; exact absurd h (by simp)
                                  | some q => rw [ihM _ _ d hm]; rw [hm] at h; exact h
                                · simp only [if_neg h3] at h ⊢
                                  exact h
                      · simp only [if_neg h2] at h ⊢
                        exact h
            · simp only [if_neg h1] at h ⊢
              exact h

/-! ## Lemmas: the client -/

theorem send_request_st (st : ClientState) (m : String) (p : Option Json) (nc : NetCall) :
    (send_request st m p nc).st = { st with request_id := st.request_id + 1 } := by
  rw [send_request]
  simp only []
  cases hs : st.sock with
  | none => rfl
  | some s =>
      cases s with
      | closed => rfl
      | conn =>
          cases nc.send with
          | pipeClosed => rfl
          | accepted n =>
              simp only []
              cases decodeJson nc.recv <;> rfl

theorem send_request_reqId (st : ClientState) (m : String) (p : Option Json) (nc : NetCall) :
    (send_request st m p nc).reqId = st.request_id + 1 := by
  rw [send_request]
  simp only []
  cases hs : st.sock with
  | none => rfl
  | some s =>
      cases s with
      | closed => rfl
      | conn =>
          cases nc.send with
          | pipeClosed => rfl
          | accepted n =>
              simp only []
              cases decodeJson nc.recv <;> rfl

theorem send_request_line (st : ClientState) (m : String) (p : Option Json) (nc : NetCall) :
    (send_request st m p nc).line = encodeJson (requestObj (st.request_id + 1) m p) := by
  rw [send_request]
  simp only []
  cases hs : st.sock with
  | none => rfl
  | some s =>
      cases s with
      | closed => rfl
      | conn =>
          cases nc.send with
          | pipeClosed => rfl
          | accepted n =>
              simp only []
              cases decodeJson nc.recv <;> rfl
theorem doCall_reqId (st : ClientState) (c : CallSpec) (nc : NetCall) :
    (doCall st c nc).reqId = st.request_id + 1 ∧
    (doCall st c nc).st.request_id = st.request_id + 1 := by
  cases c <;>
    simp [doCall, list_tools, ask_question, get_session, list_sessions,
      send_request_reqId, send_request_st]

theorem runCalls_ids (calls : List (CallSpec × NetCall)) : ∀ st : ClientState,
    (runCalls st calls).map (fun o => o.reqId) =
      List.range' (st.request_id + 1) calls.length := by
  induction calls with
  | nil => intro st; rfl
  | cons c rest ih =>
      intro st
      obtain ⟨spec, nc⟩ := c
      rw [runCalls]
      simp only [List.map_cons, List.length_cons]
      rw [(doCall_reqId st spec nc).1, ih]
      rw [(doCall_reqId st spec nc).2]
      rfl

/-- The request dict always satisfies the well-formedness the round-trip
needs, provided the params value does. -/
theorem jwf_requestObj (rid : Nat) (m : String) (p : Option Json)
    (h : jwfO p = true) :
    jwf (requestObj rid m p) = true := by
  rw [requestObj.eq_def, jwf]
  cases p with
  | none => simp [keysDistinct, jwfPairs, jwf]
  | some q =>
      rw [jwfO] at h
      by_cases ht : jTruthy q
      · simp [ht, keysDistinct, jwfPairs, jwf, h]
      · simp [ht, keysDistinct, jwfPairs, jwf]

/-! ## The claims -/

/-- C1: starting from a freshly constructed and connected client, a
sequence of N successful calls (wrappers included) places exactly the
ids 1, 2, ..., N in the outgoing requests, in issuance order. -/
theorem C1_request_ids (host : String) (port : Nat)
    (calls : List (CallSpec × NetCall))
    (_hok : ∀ o ∈ runCalls ⟨host, port, 0, some .conn⟩ calls, isOk o.res = true) :
    (runCalls ⟨host, port, 0, some .conn⟩ calls).map (fun o => o.reqId) =
      List.range' 1 calls.length := by
  simpa using runCalls_ids calls ⟨host, port, 0, some .conn⟩

/-- Witness for C1 at a concrete two-call run (one wrapper each). -/
theorem C1_request_ids_witness :
    (∀ o ∈ runCalls ⟨"localhost", 9001, 0, some .conn⟩
        [(.tools, ⟨.accepted 1000, "\x7b\x7d".data⟩),
         (.ask "X" false, ⟨.accepted 1000, "\x7b\x7d".data⟩)], isOk o.res = true) ∧
    (runCalls ⟨"localhost", 9001, 0, some .conn⟩
        [(.tools, ⟨.accepted 1000, "\x7b\x7d".data⟩),
         (.ask "X" false, ⟨.accepted 1000, "\x7b\x7d".data⟩)]).map (fun o => o.reqId) =
      List.range' 1 2 :=
  ⟨by decide, C1_request_ids "localhost" 9001
    [(.tools, ⟨.accepted 1000, "\x7b\x7d".data⟩),
     (.ask "X" false, ⟨.accepted 1000, "\x7b\x7d".data⟩)] (by decide)⟩

/-- C2 (amended): the bytes written for one request are the Python
`json.dumps` serialization (separators ", " and ": ") of the object
with members jsonrpc = "2.0", id, method, and params — params present
exactly when a truthy params value was given — followed by exactly one
newline, with no newline inside; the line parses back to that object. -/
theorem C2_request_line (st : ClientState) (m : String) (p : Option Json)
    (nc : NetCall) (hwf : jwfO p = true) :
    (send_request st m p nc).line =
      dumpValue (requestObj (st.request_id + 1) m p) ++ ['\n'] ∧
    '\n' ∉ dumpValue (requestObj (st.request_id + 1) m p) ∧
    decodeJson (send_request st m p nc).line =
      some (requestObj (st.request_id + 1) m p) := by
  refine ⟨by rw [send_request_line, encodeJson], nl_notin_dump _, ?_⟩
  rw [send_request_line]
  exact decodeJson_encodeJson _ (jwf_requestObj _ _ _ hwf)

/-- Witness for C2 at a concrete request. -/
theorem C2_request_line_witness :
    jwfO (some (.obj [("question", .str "X")])) = true ∧
    ((send_request ⟨"localhost", 9001, 0, some .conn⟩ "council/ask"
        (some (.obj [("question", .str "X")])) ⟨.accepted 9, []⟩).line =
      dumpValue (requestObj 1 "council/ask" (some (.obj [("question", .str "X")]))) ++
        ['\n'] ∧
    '\n' ∉ dumpValue (requestObj 1 "council/ask" (some (.obj [("question", .str "X")]))) ∧
    decodeJson (send_request ⟨"localhost", 9001, 0, some .conn⟩ "council/ask"
        (some (.obj [("question", .str "X")])) ⟨.accepted 9, []⟩).line =
      some (requestObj 1 "council/ask" (some (.obj [("question", .str "X")])))) :=
  ⟨by decide, C2_request_line ⟨"localhost", 9001, 0, some .conn⟩ "council/ask"
    (some (.obj [("question", .str "X")])) ⟨.accepted 9, []⟩ (by decide)⟩

/-- Counterexample to C2 as stated: a params value that was explicitly
given but is falsy (the empty dict) is omitted from the wire entirely,
so "params present when params is given" fails at params = some {}. -/
theorem C2_counterexample :
    (send_request ⟨"localhost", 9001, 0, some .conn⟩ "m" (some (.obj []))
        ⟨.accepted 9, []⟩).line =
      (send_request ⟨"localhost", 9001, 0, some .conn⟩ "m" none
        ⟨.accepted 9, []⟩).line ∧
    (send_request ⟨"localhost", 9001, 0, some .conn⟩ "m" (some (.obj []))
        ⟨.accepted 9, []⟩).line =
      "\x7b\"jsonrpc\": \"2.0\", \"id\": 1, \"method\": \"m\"\x7d\n".data := by
  constructor <;> decide

/-- C3 (amended): decode after encode is the identity on well-formed
values, and encode after decode reproduces a line that is already in
canonical (Python separator) form — such as any encoded line. -/
theorem C3_roundtrip (v : Json) (h : jwf v = true) :
    decodeJson (encodeJson v) = some v ∧
    (decodeJson (encodeJson v)).map encodeJson = some (encodeJson v) := by
  have h1 := decodeJson_encodeJson v h
  exact ⟨h1, by rw [h1, Option.map_some']⟩

/-- Witness for C3 at a concrete value. -/
theorem C3_roundtrip_witness :
    jwf (.obj [("id", .int 1), ("result", .arr [.str "x"])]) = true ∧
    (decodeJson (encodeJson (.obj [("id", .int 1), ("result", .arr [.str "x"])])) =
      some (.obj [("id", .int 1), ("result", .arr [.str "x"])]) ∧
    (decodeJson (encodeJson (.obj [("id", .int 1), ("result", .arr [.str "x"])]))).map
        encodeJson =
      some (encodeJson (.obj [("id", .int 1), ("result", .arr [.str "x"])]))) :=
  ⟨by decide, C3_roundtrip (.obj [("id", .int 1), ("result", .arr [.str "x"])]) (by decide)⟩

/-- Counterexample to C3 as stated: a well-formed wire line written with
compact separators decodes fine, but re-encoding yields the canonical
spaced line, not the original bytes. -/
theorem C3_counterexample :
    (decodeJson "\x7b\"jsonrpc\":\"2.0\",\"id\":1,\"result\":\x7b\x7d\x7d\n".data).map
        encodeJson =
      some "\x7b\"jsonrpc\": \"2.0\", \"id\": 1, \"result\": \x7b\x7d\x7d\n".data ∧
    "\x7b\"jsonrpc\": \"2.0\", \"id\": 1, \"result\": \x7b\x7d\x7d\n".data ≠
      "\x7b\"jsonrpc\":\"2.0\",\"id\":1,\"result\":\x7b\x7d\x7d\n".data := by
  constructor <;> decide

/-- C4 (amended): decoding fails (json.JSONDecodeError, modelled as
`none`) when the stripped payload is not well-formed JSON text, but a
missing id or jsonrpc field is not detected: the decoded value is
returned with no field validation at all. -/
theorem C4_decode_no_validation (kvs : List (String × Json))
    (h : jwf (.obj kvs) = true) :
    decodeJson (encodeJson (.obj kvs)) = some (.obj kvs) ∧
    decodeJson "nope".data = none ∧
    decodeJson "\x7b\"id\": ".data = none :=
  ⟨decodeJson_encodeJson _ h, rfl, rfl⟩

/-- Witness for C4 at an object carrying neither id nor jsonrpc. -/
theorem C4_decode_no_validation_witness :
    jwf (.obj [("result", .null)]) = true ∧
    (decodeJson (encodeJson (.obj [("result", .null)])) = some (.obj [("result", .null)]) ∧
    decodeJson "nope".data = none ∧
    decodeJson "\x7b\"id\": ".data = none) :=
  ⟨by decide, C4_decode_no_validation [("result", .null)] (by decide)⟩

/-- Counterexample to C4 as stated: the payload is a well-formed object
with both id and jsonrpc absent, yet decoding succeeds instead of
failing with a ProtocolError — the code never checks those fields. -/
theorem C4_counterexample :
    (decodeJson "\x7b\x7d".data).isSome = true ∧
    decodeJson "\x7b\x7d".data = some (.obj []) :=
  ⟨by decide, rfl⟩

/-- C5 (amended): a call on a never-connected client dies on the missing
`sock` attribute (AttributeError), a call on a closed client dies inside
`sock.send` (OSError: bad file descriptor); in both cases no bytes touch
the network.  No separate StateError exists. -/
theorem C5_noio_error (st : ClientState) (m : String) (p : Option Json) (nc : NetCall) :
    (st.sock = none →
      resErr (send_request st m p nc).res = some .attributeError ∧
      (send_request st m p nc).trace = []) ∧
    (st.sock = some .closed →
      resErr (send_request st m p nc).res = some .badFileDescriptor ∧
      (send_request st m p nc).trace = []) := by
  constructor <;> intro h <;> rw [send_request] <;> simp [h, resErr]

/-- Witness for C5 on a fresh client and on a closed client. -/
theorem C5_noio_error_witness :
    ((mkClient "localhost" 9001).sock = none ∧
      resErr (send_request (mkClient "localhost" 9001) "tools/list" none
        ⟨.accepted 9, []⟩).res = some .attributeError ∧
      (send_request (mkClient "localhost" 9001) "tools/list" none
        ⟨.accepted 9, []⟩).trace = []) ∧
    ((⟨"localhost", 9001, 3, some .closed⟩ : ClientState).sock = some .closed ∧
      resErr (send_request ⟨"localhost", 9001, 3, some .closed⟩ "tools/list" none
        ⟨.accepted 9, []⟩).res = some .badFileDescriptor ∧
      (send_request ⟨"localhost", 9001, 3, some .closed⟩ "tools/list" none
        ⟨.accepted 9, []⟩).trace = []) :=
  ⟨⟨rfl, (C5_noio_error (mkClient "localhost" 9001) "tools/list" none ⟨.accepted 9, []⟩).1 rfl⟩,
   ⟨rfl, (C5_noio_error ⟨"localhost", 9001, 3, some .closed⟩ "tools/list" none
      ⟨.accepted 9, []⟩).2 rfl⟩⟩

/-- Counterexample to C5 as stated: the failure on a disconnected client
is an AttributeError, not the StateError the claim names. -/
theorem C5_counterexample :
    resErr (send_request (mkClient "localhost" 9001) "tools/list" none
      ⟨.accepted 9, []⟩).res = some .attributeError ∧
    Err.attributeError ≠ Err.stateError :=
  ⟨rfl, by decide⟩

/-- C6: the code calls `sock.send` and ignores its return value, so when
the OS accepts only part of the payload, only a proper prefix of the
request line reaches the network; a broken pipe surfaces as
BrokenPipeError (an OSError, which Python aliases as IOError). -/
theorem C6_partial_send :
    (send_request ⟨"localhost", 9001, 0, some .conn⟩ "tools/list" none
        ⟨.accepted 3, []⟩).trace =
      [.wrote ((send_request ⟨"localhost", 9001, 0, some .conn⟩ "tools/list" none
        ⟨.accepted 3, []⟩).line.take 3),
       .received []] ∧
    (send_request ⟨"localhost", 9001, 0, some .conn⟩ "tools/list" none
        ⟨.accepted 3, []⟩).line.take 3 ≠
      (send_request ⟨"localhost", 9001, 0, some .conn⟩ "tools/list" none
        ⟨.accepted 3, []⟩).line ∧
    resErr (send_request ⟨"localhost", 9001, 0, some .conn⟩ "tools/list" none
      ⟨.pipeClosed, []⟩).res = some .brokenPipe := by
  exact ⟨rfl, by decide, rfl⟩

/-- C7: on a refused or unreachable endpoint the connection phase fails
with the spec taxonomy's ConnectionError (ConnectionRefusedError caught
and answered with sys.exit(1); plain OSError propagating to the
interpreter), the process exits with status 1 after a diagnostic, and no
RPC call — `tools/list` included — is ever attempted. -/
theorem C7_connection_failure (b : ConnectBehavior) (nets : List NetCall)
    (hb : b = .refused ∨ b = .unreachable) :
    (runMain b nets).exit = 1 ∧
    (runMain b nets).attempted = [] ∧
    (runMain b nets).connDiag = true ∧
    ∃ e, (runMain b nets).connErr = some e ∧ isConnFailure e = true := by
  rcases hb with rfl | rfl
  · exact ⟨rfl, rfl, rfl, .connectionRefused, rfl, rfl⟩
  · exact ⟨rfl, rfl, rfl, .osUnreachable, rfl, rfl⟩

/-- Witness for C7 at a refused connection. -/
theorem C7_connection_failure_witness :
    (ConnectBehavior.refused = ConnectBehavior.refused ∨
      ConnectBehavior.refused = ConnectBehavior.unreachable) ∧
    ((runMain .refused []).exit = 1 ∧
    (runMain .refused []).attempted = [] ∧
    (runMain .refused []).connDiag = true ∧
    ∃ e, (runMain .refused []).connErr = some e ∧ isConnFailure e = true) :=
  ⟨Or.inl rfl, C7_connection_failure .refused [] (Or.inl rfl)⟩

/-- C9: a falsy params value (None, or an empty or otherwise falsy
object) is omitted from the serialized request, indistinguishable on
the wire from passing no params. -/
theorem C9_falsy_params_omitted (st : ClientState) (m : String) (nc : NetCall)
    (p : Json) (hfalsy : jTruthy p = false) :
    (send_request st m (some p) nc).line = (send_request st m none nc).line := by
  rw [send_request_line, send_request_line, requestObj.eq_def, requestObj.eq_def]
  simp [hfalsy]

/-- Witness for C9 at params = the empty dict. -/
theorem C9_falsy_params_omitted_witness :
    jTruthy (.obj []) = false ∧
    (send_request ⟨"localhost", 9001, 0, some .conn⟩ "m" (some (.obj []))
        ⟨.accepted 9, []⟩).line =
      (send_request ⟨"localhost", 9001, 0, some .conn⟩ "m" none ⟨.accepted 9, []⟩).line :=
  ⟨by decide, C9_falsy_params_omitted ⟨"localhost", 9001, 0, some .conn⟩ "m"
    ⟨.accepted 9, []⟩ (.obj []) (by decide)⟩

/-- C10: no operation ever changes host or port; `send_request` (alone,
and through every wrapper) raises the id counter by exactly one, before
any I/O, so the id is consumed even when the send or receive fails;
`connect` and `close` leave the counter unchanged. -/
theorem C10_frame :
    (∀ (st : ClientState) (m : String) (p : Option Json) (nc : NetCall),
      (send_request st m p nc).st.host = st.host ∧
      (send_request st m p nc).st.port = st.port ∧
      (send_request st m p nc).st.request_id = st.request_id + 1 ∧
      (send_request st m p nc).reqId = st.request_id + 1) ∧
    (∀ (st : ClientState) (nc : NetCall),
      (list_tools st nc).st.host = st.host ∧ (list_tools st nc).st.port = st.port ∧
      (list_tools st nc).st.request_id = st.request_id + 1) ∧
    (∀ (st : ClientState) (q : String) (w : Bool) (nc : NetCall),
      (ask_question st q w nc).st.host = st.host ∧
      (ask_question st q w nc).st.port = st.port ∧
      (ask_question st q w nc).st.request_id = st.request_id + 1) ∧
    (∀ (st : ClientState) (sid : Json) (nc : NetCall),
      (get_session st sid nc).st.host = st.host ∧
      (get_session st sid nc).st.port = st.port ∧
      (get_session st sid nc).st.request_id = st.request_id + 1) ∧
    (∀ (st : ClientState) (nc : NetCall),
      (list_sessions st nc).st.host = st.host ∧ (list_sessions st nc).st.port = st.port ∧
      (list_sessions st nc).st.request_id = st.request_id + 1) ∧
    (∀ (st : ClientState) (b : ConnectBehavior),
      match connect st b with
      | .connected st2 => st2.host = st.host ∧ st2.port = st.port ∧
          st2.request_id = st.request_id
      | _ => True) ∧
    (∀ st : ClientState,
      match close st with
      | .ok st2 => st2.host = st.host ∧ st2.port = st.port ∧
          st2.request_id = st.request_id
      | .error _ => True) := by
  refine ⟨?_, ?_, ?_, ?_, ?_, ?_, ?_⟩
  · intro st m p nc
    rw [send_request_st, send_request_reqId]
    exact ⟨rfl, rfl, rfl, rfl⟩
  · intro st nc
    rw [list_tools, send_request_st]
    exact ⟨rfl, rfl, rfl⟩
  · intro st q w nc
    rw [ask_question, send_request_st]
    exact ⟨rfl, rfl, rfl⟩
  · intro st sid nc
    rw [get_session, send_request_st]
    exact ⟨rfl, rfl, rfl⟩
  · intro st nc
    rw [list_sessions, send_request_st]
    exact ⟨rfl, rfl, rfl⟩
  · intro st b
    cases b <;> simp [connect]
  · intro st
    rw [close]
    cases st.sock <;> simp


theorem dumpInt_coe (m : Nat) : dumpInt (m : Int) = natChars m := by
  rw [dumpInt, if_neg (by omega)]
  rfl

theorem dump_requestObj_ask (j : Nat) :
    dumpValue (requestObj (j + 1) "council/ask"
      (some (Json.obj [("question", Json.str "X"),
                       ("wait_for_consensus", Json.bool false)]))) =
    "\x7b\"jsonrpc\": \"2.0\", \"id\": ".data ++
      (dumpInt ((j + 1 : Nat) : Int) ++
       ", \"method\": \"council/ask\", \"params\": \x7b\"question\": \"X\", \"wait_for_consensus\": false\x7d\x7d".data) := by
  have h0 : requestObj (j + 1) "council/ask"
      (some (Json.obj [("question", Json.str "X"),
                       ("wait_for_consensus", Json.bool false)])) =
      Json.obj [("jsonrpc", Json.str "2.0"), ("id", Json.int (j + 1 : Nat)),
        ("method", Json.str "council/ask"),
        ("params", Json.obj [("question", Json.str "X"),
                             ("wait_for_consensus", Json.bool false)])] := by
    rw [requestObj.eq_def]
    rfl
  rw [h0]
  simp only [dumpValue, dumpPairsRest, dumpStr, List.cons_append, List.nil_append,
    List.append_assoc]
  rfl

theorem dump_replyObj_ask (j : Nat) :
    dumpValue (Json.obj [("jsonrpc", Json.str "2.0"), ("id", Json.int (j + 1 : Nat)),
      ("result", Json.obj [("session_id", Json.str "s1"), ("status", Json.str "pending")])]) =
    "\x7b\"jsonrpc\": \"2.0\", \"id\": ".data ++
      (dumpInt ((j + 1 : Nat) : Int) ++
       ", \"result\": \x7b\"session_id\": \"s1\", \"status\": \"pending\"\x7d\x7d".data) := by
  simp only [dumpValue, dumpPairsRest, dumpStr, List.cons_append, List.nil_append,
    List.append_assoc]
  rfl


/-- In the connected branch with an accepted send, the returned value is
whatever `json.loads` makes of the received buffer. -/
theorem send_request_res_ok (st : ClientState) (m : String) (p : Option Json)
    (n : Nat) (recv : List Char) (v : Json)
    (hs : st.sock = some .conn) (hd : decodeJson recv = some v) :
    (send_request st m p ⟨.accepted n, recv⟩).res = .ok v := by
  rw [send_request]
  simp only []
  rw [hs]
  simp only []
  rw [hd]

/-- C8 (amended): with the counter at j, ask_question("X", False) writes the
json.dumps-spaced wire line with id j+1, and a stub reply carrying id j+1 and
result \x7b"session_id": "s1", "status": "pending"\x7d is returned with
result.session_id = "s1". -/
theorem C8_ask_question (host : String) (port j n : Nat) (stub : List Char)
    (hstub : stub = "\x7b\"jsonrpc\": \"2.0\", \"id\": ".data ++
      (natChars (j + 1) ++
       ", \"result\": \x7b\"session_id\": \"s1\", \"status\": \"pending\"\x7d\x7d\n".data)) :
    (ask_question ⟨host, port, j, some .conn⟩ "X" false ⟨.accepted n, stub⟩).line =
      "\x7b\"jsonrpc\": \"2.0\", \"id\": ".data ++
      (natChars (j + 1) ++
       ", \"method\": \"council/ask\", \"params\": \x7b\"question\": \"X\", \"wait_for_consensus\": false\x7d\x7d\n".data) ∧
    ∃ v, (ask_question ⟨host, port, j, some .conn⟩ "X" false ⟨.accepted n, stub⟩).res = .ok v ∧
      jGet v "id" = some (.int (j + 1 : Nat)) ∧
      ((jGet v "result").bind fun r => jGet r "session_id") = some (.str "s1") ∧
      ((jGet v "result").bind fun r => jGet r "status") = some (.str "pending") := by
  have hjwf : jwf (Json.obj [("jsonrpc", Json.str "2.0"), ("id", Json.int (j + 1 : Nat)),
      ("result", Json.obj [("session_id", Json.str "s1"), ("status", Json.str "pending")])]) = true := by
    simp [jwf, jwfPairs, jwfList, keysDistinct]
  have henc : encodeJson (Json.obj [("jsonrpc", Json.str "2.0"), ("id", Json.int (j + 1 : Nat)),
      ("result", Json.obj [("session_id", Json.str "s1"), ("status", Json.str "pending")])]) = stub := by
    rw [hstub, encodeJson, dump_replyObj_ask, dumpInt_coe]
    simp only [List.append_assoc]
    rfl
  have hdec : decodeJson stub = some (Json.obj [("jsonrpc", Json.str "2.0"),
      ("id", Json.int (j + 1 : Nat)),
      ("result", Json.obj [("session_id", Json.str "s1"), ("status", Json.str "pending")])]) := by
    rw [← henc]
    exact decodeJson_encodeJson _ hjwf
  refine ⟨?_, ?_⟩
  · rw [ask_question, send_request_line]
    show encodeJson (requestObj (j + 1) "council/ask" _) = _
    rw [encodeJson, dump_requestObj_ask, dumpInt_coe]
    simp only [List.append_assoc]
    rfl
  · refine ⟨Json.obj [("jsonrpc", Json.str "2.0"), ("id", Json.int (j + 1 : Nat)),
      ("result", Json.obj [("session_id", Json.str "s1"), ("status", Json.str "pending")])],
      ?_, rfl, rfl, rfl⟩
    rw [ask_question]
    exact send_request_res_ok _ _ _ _ _ _ rfl hdec

/-- Witness for C8 at counter 0: the first ask gets id 1. -/
theorem C8_ask_question_witness :
    ("\x7b\"jsonrpc\": \"2.0\", \"id\": 1, \"result\": \x7b\"session_id\": \"s1\", \"status\": \"pending\"\x7d\x7d\n".data =
      "\x7b\"jsonrpc\": \"2.0\", \"id\": ".data ++
      (natChars (0 + 1) ++
       ", \"result\": \x7b\"session_id\": \"s1\", \"status\": \"pending\"\x7d\x7d\n".data)) ∧
    ((ask_question ⟨"localhost", 9001, 0, some .conn⟩ "X" false
        ⟨.accepted 4096, "\x7b\"jsonrpc\": \"2.0\", \"id\": 1, \"result\": \x7b\"session_id\": \"s1\", \"status\": \"pending\"\x7d\x7d\n".data⟩).line =
      "\x7b\"jsonrpc\": \"2.0\", \"id\": ".data ++
      (natChars (0 + 1) ++
       ", \"method\": \"council/ask\", \"params\": \x7b\"question\": \"X\", \"wait_for_consensus\": false\x7d\x7d\n".data) ∧
    ∃ v, (ask_question ⟨"localhost", 9001, 0, some .conn⟩ "X" false
        ⟨.accepted 4096, "\x7b\"jsonrpc\": \"2.0\", \"id\": 1, \"result\": \x7b\"session_id\": \"s1\", \"status\": \"pending\"\x7d\x7d\n".data⟩).res = .ok v ∧
      jGet v "id" = some (.int (0 + 1 : Nat)) ∧
      ((jGet v "result").bind fun r => jGet r "session_id") = some (.str "s1") ∧
      ((jGet v "result").bind fun r => jGet r "status") = some (.str "pending")) :=
  ⟨by decide, C8_ask_question "localhost" 9001 0 4096 _ (by decide)⟩

/-- Counterexample to C8 as stated: json.dumps writes ", " and ": "
separators, so the wire line is not the compact text the claim gives. -/
theorem C8_counterexample :
    (ask_question ⟨"localhost", 9001, 0, some .conn⟩ "X" false ⟨.accepted 4096, []⟩).line ≠
      "\x7b\"jsonrpc\":\"2.0\",\"id\":1,\"method\":\"council/ask\",\"params\":\x7b\"question\":\"X\",\"wait_for_consensus\":false\x7d\x7d\n".data := by
  decide

end CouncilMcp
